import Mathlib

/-!
Shallow embedding of the ziafont font-shaping core (cmap, fontread, tables,
gsub, gpos, font metrics, CFF charstrings) together with proofs about it.
Python lists are modelled as Lean lists, Python `dict` as association lists
with last-write-wins lookup, in-place list mutation as an explicit heap of
lists, fallible operations (IndexError, struct.error, assertion failures)
as `Option`/`Except`, and Python floats as rationals.
-/

namespace Ziafont

/-! ## Python list/slice primitives -/

/-- Python `l[i]` with negative-index wrap-around; `none` models `IndexError`. -/
def pyGetL {α : Type} (l : List α) (i : Int) : Option α :=
  if 0 ≤ i then l.get? i.toNat
  else if (-i).toNat ≤ l.length then l.get? (l.length - (-i).toNat)
  else none

/-- Normalize a Python slice bound against a list of length `len`:
negative values wrap from the end, then the result is clamped to `[0, len]`. -/
def pySliceBound (len : Nat) (i : Int) : Nat :=
  let j : Int := if i < 0 then (len : Int) + i else i
  (max 0 (min j (len : Int))).toNat

/-- Python slice `l[a:b]` (step 1). -/
def pySlice {α : Type} (l : List α) (a b : Int) : List α :=
  (l.take (pySliceBound l.length b)).drop (pySliceBound l.length a)

/-- Python slice assignment `l[a:b] = res` (step 1). -/
def pySpliceAssign {α : Type} (l : List α) (a b : Int) (res : List α) : List α :=
  let a' := pySliceBound l.length a
  let b' := pySliceBound l.length b
  l.take a' ++ res ++ l.drop (max a' b')

/-- Last-write-wins lookup in an association list (Python `dict.get`). -/
def dictLookup {α : Type} (entries : List (Nat × α)) (k : Nat) : Option α :=
  (entries.reverse.find? (fun e => e.1 = k)).map (fun e => e.2)

/-- Association-list lookup with default (Python `dict.get(k, d)`),
first binding wins (keys are unique in a Python dict). -/
def assocGetD {α : Type} (entries : List (String × α)) (k : String) (d : α) : α :=
  match entries.find? (fun e => e.1 = k) with
  | some e => e.2
  | none => d

/-! ## `fontread.py`: FontReader -/

/-- The byte-reader state: the underlying buffer and the cursor. -/
structure FontReader where
  data : List Nat
  pos : Nat
deriving DecidableEq, Repr

inductive ReadErr where
  | truncated
deriving DecidableEq, Repr

/-- `BytesIO.seek(ofst)`. -/
def FontReader.seek (r : FontReader) (ofst : Nat) : FontReader :=
  { r with pos := ofst }

/-- `BytesIO.read(n)`: returns up to `n` bytes from the cursor and advances
the cursor past the bytes actually read. -/
def FontReader.readBytes (r : FontReader) (n : Nat) : List Nat × FontReader :=
  let bs := (r.data.drop r.pos).take n
  (bs, { r with pos := r.pos + bs.length })

/-- Big-endian value of a byte string. -/
def beval (bs : List Nat) : Nat :=
  bs.foldl (fun acc b => acc * 256 + b) 0

/-- `struct.unpack('>…', self.read(n))`: errors unless exactly `n` bytes
were available (struct.error on a short buffer). -/
def FontReader.unpackU (r : FontReader) (n : Nat) : Except ReadErr (Nat × FontReader) :=
  let p := r.readBytes n
  if p.1.length = n then .ok (beval p.1, p.2) else .error .truncated

/-- Truthiness of the optional `offset` argument (`if offset:`):
`None` and `0` are falsy, any other integer is truthy. -/
def offsetTruthy : Option Nat → Bool
  | none => false
  | some n => n ≠ 0

/-- The shared pattern `if offset: self.seek(offset)` followed by a read body. -/
def withOffset {α : Type} (offset : Option Nat) (r : FontReader)
    (body : FontReader → Except ReadErr (α × FontReader)) :
    Except ReadErr (α × FontReader) :=
  if offsetTruthy offset then body (r.seek (offset.getD 0)) else body r

/-- `FontReader.readuint32`. -/
def FontReader.readuint32 (r : FontReader) (offset : Option Nat) :
    Except ReadErr (Nat × FontReader) :=
  withOffset offset r (fun r2 => r2.unpackU 4)

/-- `FontReader.readuint24`: `int.from_bytes(self.read(3), 'big')` never
raises, a short read simply yields the value of the bytes present. -/
def FontReader.readuint24 (r : FontReader) (offset : Option Nat) :
    Except ReadErr (Nat × FontReader) :=
  withOffset offset r (fun r2 =>
    let p := r2.readBytes 3
    .ok (beval p.1, p.2))

/-- `FontReader.readuint16`. -/
def FontReader.readuint16 (r : FontReader) (offset : Option Nat) :
    Except ReadErr (Nat × FontReader) :=
  withOffset offset r (fun r2 => r2.unpackU 2)

/-- `FontReader.readuint8`. -/
def FontReader.readuint8 (r : FontReader) (offset : Option Nat) :
    Except ReadErr (Nat × FontReader) :=
  withOffset offset r (fun r2 => r2.unpackU 1)

/-- Two's-complement reinterpretation of an unsigned value of `bits` bits. -/
def toSigned (bits : Nat) (v : Nat) : Int :=
  if v < 2 ^ (bits - 1) then (v : Int) else (v : Int) - 2 ^ bits

/-- `FontReader.readint8`. -/
def FontReader.readint8 (r : FontReader) (offset : Option Nat) :
    Except ReadErr (Int × FontReader) :=
  withOffset offset r (fun r2 =>
    (r2.unpackU 1).map (fun p => (toSigned 8 p.1, p.2)))

/-- `FontReader.readint16`. -/
def FontReader.readint16 (r : FontReader) (offset : Option Nat) :
    Except ReadErr (Int × FontReader) :=
  withOffset offset r (fun r2 =>
    (r2.unpackU 2).map (fun p => (toSigned 16 p.1, p.2)))

/-- `FontReader.readshort`: S1.14 fixed point, `readint16` scaled by `2⁻¹⁴`. -/
def FontReader.readshort (r : FontReader) (offset : Option Nat) :
    Except ReadErr (ℚ × FontReader) :=
  withOffset offset r (fun r2 =>
    (r2.readint16 none).map (fun p => ((p.1 : ℚ) / 2 ^ 14, p.2)))

/-- `FontReader.readdate`, modelled by the seconds-since-1904 count `mtime`
(the returned datetime is the font epoch plus this many seconds). -/
def FontReader.readdate (r : FontReader) (offset : Option Nat) :
    Except ReadErr (Nat × FontReader) :=
  withOffset offset r (fun r2 => do
    let p1 ← r2.readuint32 none
    let p2 ← p1.2.readuint32 none
    .ok (p1.1 * 0x100000000 + p2.1, p2.2))

/-! ## `tables.py`: Coverage and ClassDef -/

/-- A format-2 coverage range record. -/
structure CovRange where
  startglyph : Int
  endglyph : Int
  covidx : Nat
deriving DecidableEq, Repr

/-- Coverage table (format 1 glyph list, format 2 range list, or null). -/
inductive Coverage where
  | fmt1 (glyphs : List Int)
  | fmt2 (ranges : List CovRange)
  | nulltable
deriving DecidableEq, Repr

/-- `Coverage.covidx`: coverage index of a glyph, `None` when uncovered. -/
def Coverage.covidx : Coverage → Int → Option Nat
  | .nulltable, _ => none
  | .fmt1 glyphs, glyph => glyphs.findIdx? (fun g => g = glyph)
  | .fmt2 ranges, glyph =>
      match ranges.find? (fun r => r.startglyph ≤ glyph && glyph ≤ r.endglyph) with
      | some r => some (r.covidx + (glyph - r.startglyph).toNat)
      | none => none

/-- A format-2 class-definition range record. -/
structure ClassRange where
  startglyph : Int
  endglyph : Int
  cls : Nat
deriving DecidableEq, Repr

/-- ClassDef table (format 1 start+array, format 2 ranges, or the blank
subclass that always returns class 0). -/
inductive ClassDef where
  | fmt1 (startglyph : Int) (classvalues : List Nat)
  | fmt2 (ranges : List ClassRange)
  | blank
deriving DecidableEq, Repr

/-- `ClassDef.get_class` (class 0 is the default). -/
def ClassDef.get_class : ClassDef → Int → Nat
  | .fmt1 startglyph classvalues, glyphid =>
      if startglyph ≤ glyphid ∧ glyphid < startglyph + classvalues.length then
        classvalues.getD (glyphid - startglyph).toNat 0
      else 0
  | .fmt2 ranges, glyphid =>
      match ranges.find? (fun r => r.startglyph ≤ glyphid && glyphid ≤ r.endglyph) with
      | some r => r.cls
      | none => 0
  | .blank, _ => 0

/-! ## `cmap.py`: format-4 character map

All the parallel arrays are read with `readuint16`, so their elements are
natural numbers below 2¹⁶; the model does not need that bound. -/

structure Cmap4 where
  startcodes : List Nat
  endcodes : List Nat
  idrangeoffset : List Nat
  iddeltas : List Nat
  glyphidarray : List Nat
deriving DecidableEq, Repr

/-- Value stored into `glyphmap[i]` for code `i` of segment `seg`
(`none` models an `IndexError` while indexing `glyphidarray`). -/
def Cmap4.seggid (cm : Cmap4) (seg i : Nat) : Option Nat :=
  if cm.idrangeoffset.getD seg 0 ≠ 0 then
    let idx : Int := (seg : Int)
      - (cm.startcodes.length : Int)
      + (cm.idrangeoffset.getD seg 0) / 2
      + (i : Int) - (cm.startcodes.getD seg 0 : Int)
    match pyGetL cm.glyphidarray idx with
    | some gid => some (if 0 < gid then cm.iddeltas.getD seg 0 + gid else 0)
    | none => none
  else
    some ((cm.iddeltas.getD seg 0 + i) % 0x10000)

/-- The `glyphmap` dict writes, in insertion order: for each segment, for
each code in `range(startcode, endcode + 1)`, the pair `(code, gid)`. -/
def Cmap4.rawEntries (cm : Cmap4) : List (Nat × Option Nat) :=
  (List.range cm.startcodes.length).flatMap (fun seg =>
    (List.range' (cm.startcodes.getD seg 0)
        (cm.endcodes.getD seg 0 + 1 - cm.startcodes.getD seg 0)).map
      (fun i => (i, cm.seggid seg i)))

/-- The constructor ran without an `IndexError`. -/
def Cmap4.buildOk (cm : Cmap4) : Prop :=
  ∀ e ∈ cm.rawEntries, (Prod.snd e).isSome

instance (cm : Cmap4) : Decidable cm.buildOk := by
  unfold Cmap4.buildOk; infer_instance

/-- `Cmap4.glyphid`: `self.glyphmap.get(ord(char), 0)`. -/
def Cmap4.glyphid (cm : Cmap4) (charid : Nat) : Nat :=
  (((cm.rawEntries.reverse.find? (fun e => e.1 = charid)).bind (fun e => e.2)).getD 0)

/-! ## `gpos.py`: glyph positioning -/

/-- A GPOS ValueRecord: a sparse dict of the fields `adjust` reads
(absent keys behave as 0 through `dict.get(key, 0)`). -/
structure ValueRecord where
  x : Option Int := none
  y : Option Int := none
  xadvance : Option Int := none
  yadvance : Option Int := none
deriving DecidableEq, Repr

structure PositionDelta where
  dx : Int
  dy : Int
  dadvance : Int
deriving DecidableEq, Repr

def zeroDelta : PositionDelta := ⟨0, 0, 0⟩

/-- `merge_delta`. -/
def merge_delta (d1 d2 : PositionDelta) : PositionDelta :=
  ⟨d1.dx + d2.dx, d1.dy + d2.dy, d1.dadvance + d2.dadvance⟩

/-- `merge_deltas`: `zip` truncates to the shorter list. -/
def merge_deltas (deltas1 deltas2 : List PositionDelta) : List PositionDelta :=
  List.zipWith merge_delta deltas1 deltas2

/-- `valuerec_to_delta`. -/
def valuerec_to_delta (vrec : Option ValueRecord) : PositionDelta :=
  match vrec with
  | none => ⟨0, 0, 0⟩
  | some v => ⟨v.x.getD 0, v.y.getD 0, v.xadvance.getD 0⟩

/-- A `PairValue` record of a format-1 pair-adjustment pair set. -/
structure PairValue where
  secondglyph : Int
  value1 : ValueRecord
  value2 : ValueRecord
deriving DecidableEq, Repr

/-- An anchor table (only `x`/`y` are used by positioning). -/
structure Anchor where
  x : Int
  y : Int
  anchorpoint : Option Nat := none
  xofst : Option Nat := none
  yofst : Option Nat := none
deriving DecidableEq, Repr

/-- A MarkArray record. -/
structure MarkRecord where
  markclass : Nat
  anchortable : Anchor
deriving DecidableEq, Repr

/-- The five implemented GPOS subtable kinds. -/
inductive GposSubtable where
  | single1 (coverage : Coverage) (valuerecord : ValueRecord)
  | single2 (coverage : Coverage) (valuerecords : List ValueRecord)
  | pair1 (coverage : Coverage) (pairsets : List (List PairValue))
  | pair2 (coverage : Coverage) (class1def class2def : ClassDef)
      (classrecords : List (List (ValueRecord × ValueRecord)))
  | mark2base (markcoverage basecoverage : Coverage)
      (markarray : List MarkRecord) (basearray : List (List (Option Anchor)))
  | mark2mark (mark1coverage mark2coverage : Coverage)
      (mark1array : List MarkRecord) (mark2array : List (List Anchor))
deriving DecidableEq, Repr

/-- One step of `PairAdjustmentSubtable.adjust`'s loop body for a covered
first glyph: produce the (possibly stale) value records for the pair.
`none` models an `IndexError`. -/
def pairValueRecs (sub : GposSubtable) (covidx : Nat) (gid0 gid : Int)
    (v1 v2 : Option ValueRecord) :
    Option (Option ValueRecord × Option ValueRecord) :=
  match sub with
  | .pair1 _ pairsets =>
      match pairsets.get? covidx with
      | none => none
      | some pairs =>
          match pairs.find? (fun p => p.secondglyph = gid) with
          | some p => some (some p.value1, some p.value2)
          | none => some (v1, v2)
  | .pair2 _ class1def class2def classrecords =>
      let c1 := class1def.get_class gid0
      let c2 := class2def.get_class gid
      match (classrecords.get? c1).bind (fun row => row.get? c2) with
      | some pr => some (some pr.1, some pr.2)
      | none => none
  | _ => none

/-- Loop of `PairAdjustmentSubtable.adjust` over adjacent pairs
`zip(glyphids[1:], glyphids[:-1])`.  `accRev` is the delta list built so
far, in reverse (its head is Python's `deltas[-1]`). -/
def pairAdjustLoop (sub : GposSubtable) (cov : Coverage) :
    List (Int × Int) → Option ValueRecord → Option ValueRecord →
    List PositionDelta → Option (List PositionDelta)
  | [], _, _, accRev => some accRev.reverse
  | (gid0, gid) :: rest, v1, v2, accRev =>
      match cov.covidx gid0 with
      | none => pairAdjustLoop sub cov rest v1 v2 (zeroDelta :: accRev)
      | some c =>
          match pairValueRecs sub c gid0 gid v1 v2 with
          | none => none
          | some (v1', v2') =>
              let head := accRev.headD zeroDelta
              pairAdjustLoop sub cov rest v1' v2'
                (valuerec_to_delta v2' ::
                  merge_delta head (valuerec_to_delta v1') :: accRev.tail)

/-- Loop of `MarkToBaseSubtable.adjust` / `MarkToMarkSubtable.adjust` over
`enumerate(zip(glyphids[1:], glyphids[:-1]))`; `lookupAnchors` yields
`(markAnchor, baseOrMark2Anchor)` when both glyphs are covered. -/
def markAdjustLoop
    (lookupAnchors : Int → Int → Option (Option (Anchor × Anchor)))
    (advances : List Int) :
    Nat → List (Int × Int) → List PositionDelta → Option (List PositionDelta)
  | _, [], accRev => some accRev.reverse
  | i, (gid0, gid) :: rest, accRev =>
      match lookupAnchors gid0 gid with
      | none => none
      | some none => markAdjustLoop lookupAnchors advances (i + 1) rest (zeroDelta :: accRev)
      | some (some (markAnchor, baseAnchor)) =>
          match advances.get? i with
          | none => none
          | some adv =>
              let dx := baseAnchor.x - markAnchor.x - adv
              let dy := baseAnchor.y - markAnchor.y
              markAdjustLoop lookupAnchors advances (i + 1) rest (⟨dx, dy, -dx⟩ :: accRev)

/-- Anchor pair lookup of `MarkToBaseSubtable.adjust` (` some none` means
one of the coverage/anchor conditions failed, so a zero delta is emitted;
`none` models an `IndexError`). -/
def mark2baseAnchors (markcoverage basecoverage : Coverage)
    (markarray : List MarkRecord) (basearray : List (List (Option Anchor)))
    (gid0 gid : Int) : Option (Option (Anchor × Anchor)) :=
  match markcoverage.covidx gid, basecoverage.covidx gid0 with
  | some markid, some baseid =>
      match markarray.get? markid with
      | none => none
      | some markanchor =>
          match (basearray.get? baseid).bind (fun row => row.get? markanchor.markclass) with
          | none => none
          | some none => some none
          | some (some baseanchor) => some (some (markanchor.anchortable, baseanchor))
  | _, _ => some none

/-- Anchor pair lookup of `MarkToMarkSubtable.adjust` (the `mark2array`
anchors are built unconditionally, so there is no `None` entry case). -/
def mark2markAnchors (mark1coverage mark2coverage : Coverage)
    (mark1array : List MarkRecord) (mark2array : List (List Anchor))
    (gid0 gid : Int) : Option (Option (Anchor × Anchor)) :=
  match mark1coverage.covidx gid, mark2coverage.covidx gid0 with
  | some mark1id, some mark2id =>
      match mark1array.get? mark1id with
      | none => none
      | some mark1anchor =>
          match (mark2array.get? mark2id).bind (fun row => row.get? mark1anchor.markclass) with
          | none => none
          | some mark2anchor => some (some (mark1anchor.anchortable, mark2anchor))
  | _, _ => some none

/-- `GposSubtable.adjust`: one positioning delta per input glyph.
`none` models a Python exception (`IndexError`). -/
def GposSubtable.adjust (sub : GposSubtable) (glyphids : List Int)
    (advances : List Int) : Option (List PositionDelta) :=
  match sub with
  | .single1 coverage valuerecord =>
      some (glyphids.map (fun gid =>
        if (coverage.covidx gid).isSome then
          ⟨valuerecord.x.getD 0, valuerecord.y.getD 0, valuerecord.xadvance.getD 0⟩
        else zeroDelta))
  | .single2 coverage valuerecords =>
      -- The walrus in `if (covidx := self.coverage.covidx(gid) is not None):`
      -- binds the *boolean*, so every covered glyph reads `valuerecords[True]`,
      -- i.e. `valuerecords[1]`.
      glyphids.mapM (fun gid =>
        if (coverage.covidx gid).isSome then
          (valuerecords.get? 1).map (fun v =>
            (⟨v.x.getD 0, v.y.getD 0, v.xadvance.getD 0⟩ : PositionDelta))
        else some zeroDelta)
  | .pair1 coverage _ =>
      pairAdjustLoop sub coverage (glyphids.zip (glyphids.drop 1)) none none [zeroDelta]
  | .pair2 coverage _ _ _ =>
      pairAdjustLoop sub coverage (glyphids.zip (glyphids.drop 1)) none none [zeroDelta]
  | .mark2base markcoverage basecoverage markarray basearray =>
      markAdjustLoop (mark2baseAnchors markcoverage basecoverage markarray basearray)
        advances 0 (glyphids.zip (glyphids.drop 1)) [zeroDelta]
  | .mark2mark mark1coverage mark2coverage mark1array mark2array =>
      markAdjustLoop (mark2markAnchors mark1coverage mark2coverage mark1array mark2array)
        advances 0 (glyphids.zip (glyphids.drop 1)) [zeroDelta]

/-- A GPOS lookup: its list of (implemented) subtables. -/
structure GposLookup where
  subtables : List GposSubtable
deriving DecidableEq, Repr

/-- `GposLookup.adjust`: zero deltas merged with each subtable's deltas. -/
def GposLookup.adjust (lk : GposLookup) (glyphids : List Int)
    (advances : List Int) : Option (List PositionDelta) :=
  lk.subtables.foldlM
    (fun deltas sub => (sub.adjust glyphids advances).map (merge_deltas deltas))
    (glyphids.map (fun _ => zeroDelta))

/-- GPOS features that cannot be turned off. -/
def gposPermFeatures : List String := ["mark", "mkmk", "curs"]

/-- The GPOS engine restricted to what `position` uses: the
`features_available()` map for the active script/language. -/
structure Gpos where
  feattable : List (String × List GposLookup)
deriving Repr

/-- The feature-gated delta accumulation inside `Gpos.position`
(lines building `delta` before it is folded into x/y positions). -/
def Gpos.positionDeltas (gpos : Gpos) (gids : List Int) (advances : List Int)
    (features : List (String × Bool)) : Option (List PositionDelta) :=
  gpos.feattable.foldlM
    (fun delta entry =>
      if entry.1 ∈ gposPermFeatures || assocGetD features entry.1 false then
        entry.2.foldlM
          (fun d table => (table.adjust gids advances).map (merge_deltas d))
          delta
      else some delta)
    (gids.map (fun _ => zeroDelta))

/-- The final loop of `Gpos.position`, folding deltas into (x, y) pairs. -/
def positionXY : List (PositionDelta × Int) → Int → List (Int × Int)
  | [], _ => []
  | (d, advance) :: rest, x =>
      (x + d.dx, d.dy) :: positionXY rest (x + d.dx + advance + d.dadvance)

/-- `Gpos.position`: each glyph is modelled by its `(index, advance())` pair. -/
def Gpos.position (gpos : Gpos) (glyphs : List (Int × Int))
    (features : List (String × Bool)) : Option (List (Int × Int)) :=
  let gids := glyphs.map (fun g => g.1)
  let advances := glyphs.map (fun g => g.2)
  (gpos.positionDeltas gids advances features).map (fun delta =>
    positionXY (delta.zip advances) 0)

/-- The lookups actually applied by `Gpos.position` for a feature set,
in application order. -/
def Gpos.activeLookups (gpos : Gpos) (features : List (String × Bool)) :
    List GposLookup :=
  (gpos.feattable.filter
      (fun entry => entry.1 ∈ gposPermFeatures || assocGetD features entry.1 false)).flatMap
    (fun entry => entry.2)

/-! ## `gsub.py`: glyph substitution

Python mutates glyph-id lists in place, so substitution is modelled over an
explicit heap of lists; `list.copy()` and list slicing allocate fresh cells. -/

structure SeqLookupRecord where
  sequenceindex : Nat
  lookupindex : Nat
deriving DecidableEq, Repr

structure ChainedSeqRule where
  backtrack : List Int
  input : List Int
  lookahead : List Int
  sequence : List SeqLookupRecord
deriving DecidableEq, Repr

/-- One `ligs` dict entry: trailing components mapped to the ligature glyph;
the dict is modelled as a list in insertion order. -/
structure LigEntry where
  comps : List Int
  lig : Int
deriving DecidableEq, Repr

/-- The GSUB lookup subtable kinds built by `GSUBLookup.__init__`. -/
inductive GsubSubtable where
  | unimplemented
  | single1 (covtable : Coverage) (deltagid : Int)
  | single2 (covtable : Coverage) (subglyphids : List Int)
  | multiple (covtable : Coverage) (subglyphids : List (List Int))
  | alternate (covtable : Coverage) (altglyphs : List (List Int))
  | ligature (covtable : Coverage) (ligsets : List (List LigEntry))
  | chained1 (covtable : Coverage) (rules : List (List ChainedSeqRule))
  | chained2 (covtable : Coverage) (backtrackClass inputClass lookaheadClass : ClassDef)
      (rules : List (List ChainedSeqRule))
  | chained3 (backCoverage inptCoverage lookaheadCoverage : List Coverage)
      (seqlookups : List SeqLookupRecord)
deriving DecidableEq, Repr

structure GsubLookup where
  subtables : List GsubSubtable
deriving DecidableEq, Repr

/-- Net effect of `LookupSingleSub1.sub` on the list it mutates. -/
def singleSub1List (covtable : Coverage) (deltagid : Int) (glyphids : List Int) :
    List Int :=
  glyphids.map (fun g => if (covtable.covidx g).isSome then g + deltagid else g)

/-- Net effect of `LookupSingleSub2.sub`; `none` models an `IndexError`. -/
def singleSub2List (covtable : Coverage) (subglyphids : List Int)
    (glyphids : List Int) : Option (List Int) :=
  glyphids.mapM (fun g =>
    match covtable.covidx g with
    | some c => subglyphids.get? c
    | none => some g)

/-- `LookupMultipleSub.sub`: builds a fresh list. -/
def multipleSubList (covtable : Coverage) (subglyphids : List (List Int))
    (glyphids : List Int) : Option (List Int) :=
  (glyphids.mapM (fun g =>
    match covtable.covidx g with
    | some c => subglyphids.get? c
    | none => some [g])).map List.flatten

/-- Net effect of `LookupAlternate.sub`; `pick` is an oracle for
`random.choice` (an index into the alternate list) used when the feature
is `rand`. -/
def alternateSubList (covtable : Coverage) (altglyphs : List (List Int))
    (name : Option String) (pick : List Int → Nat) (glyphids : List Int) :
    Option (List Int) :=
  glyphids.mapM (fun g =>
    match covtable.covidx g with
    | some c =>
        (altglyphs.get? c).bind (fun altgids =>
          if name = some "rand" then altgids.get? (pick altgids)
          else altgids.get? 0)
    | none => some g)

/-- `LookupLigatureSub.sub`: greedy left-to-right scan building a fresh
list.  At a covered glyph the ligature-set entries are tried in insertion
order against the immediately following glyphs (a Python slice comparison,
so a truncated slice never equals a longer component list). -/
def ligatureSubList (covtable : Coverage) (ligsets : List (List LigEntry)) :
    List Int → Option (List Int)
  | [] => some []
  | gid :: rest =>
      match covtable.covidx gid with
      | none => (ligatureSubList covtable ligsets rest).map (fun l => gid :: l)
      | some c =>
          match ligsets.get? c with
          | none => none
          | some ligset =>
              match ligset.find? (fun e => rest.take e.comps.length == e.comps) with
              | some e =>
                  (ligatureSubList covtable ligsets (rest.drop e.comps.length)).map
                    (fun l => e.lig :: l)
              | none => (ligatureSubList covtable ligsets rest).map (fun l => gid :: l)
termination_by l => l.length
decreasing_by
  all_goals simp only [List.length_cons, List.length_drop]
  all_goals omega

/-! ### The heap of Python lists -/

abbrev Heap := List (List Int)

def heapRead (h : Heap) (r : Nat) : List Int := h.getD r []

def heapWrite (h : Heap) (r : Nat) (v : List Int) : Heap := h.set r v

def heapAlloc (h : Heap) (v : List Int) : Heap × Nat := (h ++ [v], h.length)

/-- `[cov.covidx(glyphids[idxOf k]) for k, cov in enumerate(covs)]` followed
by the `None in covidx` test: `none` models an `IndexError` while indexing,
`some b` says whether every slot was covered. -/
def covScan (covs : List Coverage) (g : List Int) (idxOf : Nat → Int) :
    Option Bool :=
  ((List.range covs.length).mapM (fun k => pyGetL g (idxOf k))).map (fun gids =>
    (covs.zip gids).all (fun p => (p.1.covidx p.2).isSome))

/-- GSUB features that cannot be turned off. -/
def gsubPermFeatures : List String := ["ccmp", "locl", "rlig", "rvrn", "rclt"]

mutual

/-- Heap semantics of one subtable's `sub`: takes the reference holding the
glyph-id list, returns the updated heap and the reference to the returned
list.  `none` models a Python exception or a non-terminating loop. -/
def subRun (fuel : Nat) (sub : GsubSubtable) (lookups : List GsubLookup)
    (name : Option String) (pick : List Int → Nat) (h : Heap) (r : Nat) :
    Option (Heap × Nat) :=
  match fuel with
  | 0 => none
  | fuel + 1 =>
    match sub with
    | .unimplemented => some (h, r)
    | .single1 covtable deltagid =>
        some (heapWrite h r (singleSub1List covtable deltagid (heapRead h r)), r)
    | .single2 covtable subglyphids =>
        (singleSub2List covtable subglyphids (heapRead h r)).map
          (fun l => (heapWrite h r l, r))
    | .alternate covtable altglyphs =>
        (alternateSubList covtable altglyphs name pick (heapRead h r)).map
          (fun l => (heapWrite h r l, r))
    | .multiple covtable subglyphids =>
        (multipleSubList covtable subglyphids (heapRead h r)).map
          (fun l => heapAlloc h l)
    | .ligature covtable ligsets =>
        (ligatureSubList covtable ligsets (heapRead h r)).map
          (fun l => heapAlloc h l)
    | .chained1 covtable rules =>
        (chain1Loop fuel covtable rules lookups pick h r 0).map (fun h2 => (h2, r))
    | .chained2 covtable bc ic lc rules =>
        (chain2Loop fuel covtable bc ic lc rules lookups pick h r 0).map
          (fun h2 => (h2, r))
    | .chained3 backCoverage inptCoverage lookaheadCoverage seqlookups =>
        (chain3Loop fuel backCoverage inptCoverage lookaheadCoverage seqlookups
            lookups pick h r backCoverage.length).map (fun h2 => (h2, r))
termination_by structural fuel

/-- The `while i < len(glyphids)` loop of `LookupChainedSub1.sub`. -/
def chain1Loop (fuel : Nat) (covtable : Coverage)
    (rules : List (List ChainedSeqRule)) (lookups : List GsubLookup)
    (pick : List Int → Nat) (h : Heap) (r : Nat) (i : Nat) : Option Heap :=
  match fuel with
  | 0 => none
  | fuel + 1 =>
    let g := heapRead h r
    if i < g.length then
      match covtable.covidx (g.getD i 0) with
      | none => chain1Loop fuel covtable rules lookups pick h r (i + 1)
      | some c =>
          match rules.get? c with
          | none => none
          | some ruleset =>
              match chain1Rules fuel ruleset lookups pick h r i with
              | none => none
              | some (h2, i2) => chain1Loop fuel covtable rules lookups pick h2 r i2
    else some h
termination_by structural fuel

/-- The `for rule in ruleset` loop of `LookupChainedSub1.sub`; a mismatch
advances `i` by one *inside* the rule loop, a match runs the sequence
lookups and advances `i` by the rule's input length, and in both cases the
loop moves on to the next rule. -/
def chain1Rules (fuel : Nat) (ruleset : List ChainedSeqRule)
    (lookups : List GsubLookup) (pick : List Int → Nat) (h : Heap) (r : Nat)
    (i : Nat) : Option (Heap × Nat) :=
  match fuel with
  | 0 => none
  | fuel + 1 =>
    match ruleset with
    | [] => some (h, i)
    | rule :: rs =>
      let g := heapRead h r
      let inpt := pySlice g ((i : Int) + 1) ((i : Int) + 1 + rule.input.length)
      if inpt ≠ rule.input then chain1Rules fuel rs lookups pick h r (i + 1)
      else
        let backtrack := pySlice g ((i : Int) - rule.backtrack.length) (i : Int)
        if backtrack.reverse ≠ rule.backtrack then
          chain1Rules fuel rs lookups pick h r (i + 1)
        else
          let aheadlen := rule.input.length + rule.lookahead.length
          let lookahead := pySlice g ((i : Int) + 1 + rule.input.length)
            ((i : Int) + 1 + aheadlen)
          if lookahead ≠ rule.lookahead then
            chain1Rules fuel rs lookups pick h r (i + 1)
          else
            match seqFold fuel rule.sequence rule.input.length lookups pick h r i with
            | none => none
            | some h2 => chain1Rules fuel rs lookups pick h2 r (i + rule.input.length)
termination_by structural fuel

/-- The `for seqlookup in …` splice loop shared by the chained-context
subtables: run the nested lookup on the fresh slice `glyphids[i:i+1+inputlen]`
and assign the result back into `glyphids[i+seqidx:i+1+inputlen]`. -/
def seqFold (fuel : Nat) (seqlookups : List SeqLookupRecord) (inputlen : Nat)
    (lookups : List GsubLookup) (pick : List Int → Nat) (h : Heap) (r : Nat)
    (i : Nat) : Option Heap :=
  match fuel with
  | 0 => none
  | fuel + 1 =>
    match seqlookups with
    | [] => some h
    | sl :: rest =>
      match lookups.get? sl.lookupindex with
      | none => none
      | some lk =>
          let g := heapRead h r
          let al := heapAlloc h (pySlice g (i : Int) ((i : Int) + 1 + inputlen))
          match lookupRun fuel lk lookups none pick al.1 al.2 with
          | none => none
          | some (h2, rres) =>
              let res := heapRead h2 rres
              let cur := heapRead h2 r
              let h3 := heapWrite h2 r
                (pySpliceAssign cur ((i : Int) + sl.sequenceindex)
                  ((i : Int) + 1 + inputlen) res)
              seqFold fuel rest inputlen lookups pick h3 r i
termination_by structural fuel

/-- The `while i < len(glyphids)` loop of `LookupChainedSub2.sub`
(`i` advances by exactly one per outer iteration). -/
def chain2Loop (fuel : Nat) (covtable : Coverage)
    (bc ic lc : ClassDef) (rules : List (List ChainedSeqRule))
    (lookups : List GsubLookup) (pick : List Int → Nat) (h : Heap) (r : Nat)
    (i : Nat) : Option Heap :=
  match fuel with
  | 0 => none
  | fuel + 1 =>
    let g := heapRead h r
    if i < g.length then
      match covtable.covidx (g.getD i 0) with
      | none => chain2Loop fuel covtable bc ic lc rules lookups pick h r (i + 1)
      | some _ =>
          let classid := ic.get_class (g.getD i 0)
          match rules.get? classid with
          | none => none
          | some ruleset =>
              match chain2Rules fuel bc ic lc ruleset lookups pick h r i with
              | none => none
              | some h2 =>
                  chain2Loop fuel covtable bc ic lc rules lookups pick h2 r (i + 1)
    else some h
termination_by structural fuel

/-- The `for rule in ruleset` loop of `LookupChainedSub2.sub`
(class-based matching; `i` is not changed inside this loop). -/
def chain2Rules (fuel : Nat) (bc ic lc : ClassDef)
    (ruleset : List ChainedSeqRule) (lookups : List GsubLookup)
    (pick : List Int → Nat) (h : Heap) (r : Nat) (i : Nat) : Option Heap :=
  match fuel with
  | 0 => none
  | fuel + 1 =>
    match ruleset with
    | [] => some h
    | rule :: rs =>
      let g := heapRead h r
      let inpt := (pySlice g ((i : Int) + 1) ((i : Int) + 1 + rule.input.length)).map
        (fun x => (ic.get_class x : Int))
      if inpt ≠ rule.input then chain2Rules fuel bc ic lc rs lookups pick h r i
      else
        let backtrack := (pySlice g ((i : Int) - rule.backtrack.length) (i : Int)).map
          (fun x => (bc.get_class x : Int))
        if backtrack.reverse ≠ rule.backtrack then
          chain2Rules fuel bc ic lc rs lookups pick h r i
        else
          let aheadlen := rule.input.length + rule.lookahead.length
          let lookahead := (pySlice g ((i : Int) + 1 + rule.input.length)
              ((i : Int) + 1 + aheadlen)).map (fun x => (lc.get_class x : Int))
          if lookahead ≠ rule.lookahead then
            chain2Rules fuel bc ic lc rs lookups pick h r i
          else
            match seqFold fuel rule.sequence rule.input.length lookups pick h r i with
            | none => none
            | some h2 => chain2Rules fuel bc ic lc rs lookups pick h2 r i
termination_by structural fuel

/-- The scan loop of `LookupChainedSub3.sub`. -/
def chain3Loop (fuel : Nat) (backCoverage inptCoverage lookaheadCoverage : List Coverage)
    (seqlookups : List SeqLookupRecord) (lookups : List GsubLookup)
    (pick : List Int → Nat) (h : Heap) (r : Nat) (i : Nat) : Option Heap :=
  match fuel with
  | 0 => none
  | fuel + 1 =>
    let g := heapRead h r
    let ilen := inptCoverage.length
    if (i : Int) < (g.length : Int) - lookaheadCoverage.length - ilen + 1 then
      match covScan inptCoverage g (fun k => (i : Int) + k) with
      | none => none
      | some false =>
          chain3Loop fuel backCoverage inptCoverage lookaheadCoverage seqlookups
            lookups pick h r (i + 1)
      | some true =>
        match covScan backCoverage g (fun k => (i : Int) - k - 1) with
        | none => none
        | some false =>
            chain3Loop fuel backCoverage inptCoverage lookaheadCoverage seqlookups
              lookups pick h r (i + 1)
        | some true =>
          match covScan lookaheadCoverage g (fun k => (i : Int) + ilen + k) with
          | none => none
          | some false =>
              chain3Loop fuel backCoverage inptCoverage lookaheadCoverage seqlookups
                lookups pick h r (i + 1)
          | some true =>
              match seqFold fuel seqlookups ilen lookups pick h r i with
              | none => none
              | some h2 =>
                  chain3Loop fuel backCoverage inptCoverage lookaheadCoverage
                    seqlookups lookups pick h2 r (i + ilen)
    else some h
termination_by structural fuel

/-- `GSUBLookup.sub`: copy the incoming list, then run each subtable on the
copy, threading the returned reference. -/
def lookupRun (fuel : Nat) (lk : GsubLookup) (lookups : List GsubLookup)
    (name : Option String) (pick : List Int → Nat) (h : Heap) (r : Nat) :
    Option (Heap × Nat) :=
  match fuel with
  | 0 => none
  | fuel + 1 =>
    let al := heapAlloc h (heapRead h r)
    subtablesFold fuel lk.subtables lookups name pick al.1 al.2
termination_by structural fuel

/-- The `for subtable in self.subtables` loop of `GSUBLookup.sub`. -/
def subtablesFold (fuel : Nat) (subs : List GsubSubtable)
    (lookups : List GsubLookup) (name : Option String) (pick : List Int → Nat)
    (h : Heap) (r : Nat) : Option (Heap × Nat) :=
  match fuel with
  | 0 => none
  | fuel + 1 =>
    match subs with
    | [] => some (h, r)
    | sub :: rest =>
        match subRun fuel sub lookups name pick h r with
        | none => none
        | some (h2, r2) => subtablesFold fuel rest lookups name pick h2 r2
termination_by structural fuel

end

/-- The GSUB engine restricted to what `sub` uses. -/
structure Gsub where
  feattable : List (String × List GsubLookup)
  lookups : List GsubLookup
deriving Repr

/-- The `for table in tables` loop of `apply_feature`: each lookup receives
a *copy* of the current list (`glyphids.copy()`). -/
def applyFeatureTables (fuel : Nat) (tables : List GsubLookup)
    (name : String) (lookups : List GsubLookup) (pick : List Int → Nat)
    (h : Heap) (r : Nat) : Option (Heap × Nat) :=
  match tables with
  | [] => some (h, r)
  | table :: rest =>
      let al := heapAlloc h (heapRead h r)
      match lookupRun fuel table lookups (some name) pick al.1 al.2 with
      | none => none
      | some (h2, r2) => applyFeatureTables fuel rest name lookups pick h2 r2

/-- One pass of `Gsub.sub` over `feattable.keys()`, applying the features
selected by `gate`. -/
def featPass (fuel : Nat) (entries : List (String × List GsubLookup))
    (gate : String → Bool) (lookups : List GsubLookup) (pick : List Int → Nat)
    (h : Heap) (r : Nat) : Option (Heap × Nat) :=
  match entries with
  | [] => some (h, r)
  | (name, tables) :: rest =>
      if gate name then
        match applyFeatureTables fuel tables name lookups pick h r with
        | none => none
        | some (h2, r2) => featPass fuel rest gate lookups pick h2 r2
      else featPass fuel rest gate lookups pick h r

/-- `Gsub.sub`: permanent features first, then user-enabled features, both
in the font-declared order; returns the reference of the final list. -/
def gsubRun (fuel : Nat) (gsub : Gsub) (features : List (String × Bool))
    (pick : List Int → Nat) (h : Heap) (r : Nat) : Option (Heap × Nat) :=
  match featPass fuel gsub.feattable (fun feat => feat ∈ gsubPermFeatures)
      gsub.lookups pick h r with
  | none => none
  | some (h1, r1) =>
      featPass fuel gsub.feattable (fun feat => assocGetD features feat false)
        gsub.lookups pick h1 r1

/-! ## `font.py`: advance widths -/

/-- One `hmtx` long metric. -/
structure AdvanceWidth where
  width : Nat
  leftsidebearing : Int
deriving DecidableEq, Repr

/-- The slice of `Font` that `Font.advance` reads:  `advwidths` from
`_readwidths` (one entry per long metric, possibly fewer than the glyph
count), `advwidthmax` from the `hhea` table
(`self.info.layout.advwidthmax`), the user feature dict, and the GPOS
engine if present. -/
structure FontModel where
  advwidths : List AdvanceWidth
  advwidthmax : AdvanceWidth
  features : List (String × Bool)
  gpos : Option Gpos

/-- `try: self.advwidths[glyph].width except IndexError: advwidthmax.width`;
this is also the `glyph.advance()` used when building the glyph objects
passed to `Gpos.position` (the nested calls have `glyph2 = None`). -/
def FontModel.advanceBase (f : FontModel) (glyph : Nat) : Nat :=
  match f.advwidths.get? glyph with
  | some aw => aw.width
  | none => f.advwidthmax.width

/-- Truthiness of `glyph2` (`None` and glyph id 0 are falsy). -/
def glyph2Truthy : Option Nat → Bool
  | none => false
  | some g => g ≠ 0

/-- `Font.advance(glyph, glyph2)`; `none` models an exception inside the
GPOS positioning call. -/
def FontModel.advance (f : FontModel) (glyph : Nat) (glyph2 : Option Nat) :
    Option Int :=
  let adv : Int := f.advanceBase glyph
  if assocGetD f.features "kern" true && glyph2Truthy glyph2 && f.gpos.isSome then
    match f.gpos, glyph2 with
    | some gpos, some g2 =>
        match gpos.position
            [((glyph : Int), (f.advanceBase glyph : Int)),
             ((g2 : Int), (f.advanceBase g2 : Int))] [("kern", true)] with
        | some xy => (xy.get? 1).map (fun q => q.1)
        | none => none
    | _, _ => some adv
  else some adv

/-! ## `glyphcff.py`: CFF Type2 charstrings -/

/-- The members of the `Operator` enum (`WIDTH` is the synthetic marker the
reader inserts for the deduced width argument). -/
inductive CSOp where
  | HSTEM | VSTEM | VMOVETO | RLINETO | HLINETO | VLINETO | RRCURVETO
  | CALLSUBR | RETURN | ENDCHAR | HSTEMHM | HINTMASK | CNTRMASK | RMOVETO
  | HMOVETO | VSTEMHM | RCURVELINE | RLINECURVE | VVCURVETO | HHCURVETO
  | CALLGSUBR | VHCURVETO | HVCURVETO
  | AND | OR | NOT | ABS | ADD | SUB | NEG | EQ | DROP | PUT | GET
  | IFELSE | RANDOM | MUL | SQRT | DUP | EXCH | INDEX | ROLL
  | HFLEX | FLEX | HFLEX1 | FLEX1
  | WIDTH
deriving DecidableEq, Repr

/-- `Operator(key)`: `none` models the `ValueError` for a reserved/unknown
key (two-byte keys are `12 * 256 + second byte`). -/
def toCSOp (key : Nat) : Option CSOp :=
  match key with
  | 1 => some .HSTEM
  | 3 => some .VSTEM
  | 4 => some .VMOVETO
  | 5 => some .RLINETO
  | 6 => some .HLINETO
  | 7 => some .VLINETO
  | 8 => some .RRCURVETO
  | 10 => some .CALLSUBR
  | 11 => some .RETURN
  | 14 => some .ENDCHAR
  | 18 => some .HSTEMHM
  | 19 => some .HINTMASK
  | 20 => some .CNTRMASK
  | 21 => some .RMOVETO
  | 22 => some .HMOVETO
  | 23 => some .VSTEMHM
  | 24 => some .RCURVELINE
  | 25 => some .RLINECURVE
  | 26 => some .VVCURVETO
  | 27 => some .HHCURVETO
  | 29 => some .CALLGSUBR
  | 30 => some .VHCURVETO
  | 31 => some .HVCURVETO
  | 0x0c03 => some .AND
  | 0x0c04 => some .OR
  | 0x0c05 => some .NOT
  | 0x0c09 => some .ABS
  | 0x0c0a => some .ADD
  | 0x0c0c => some .SUB
  | 0x0c0e => some .NEG
  | 0x0c0f => some .EQ
  | 0x0c12 => some .DROP
  | 0x0c14 => some .PUT
  | 0x0c15 => some .GET
  | 0x0c16 => some .IFELSE
  | 0x0c17 => some .RANDOM
  | 0x0c18 => some .MUL
  | 0x0c1a => some .SQRT
  | 0x0c1b => some .DUP
  | 0x0c1c => some .EXCH
  | 0x0c1d => some .INDEX
  | 0x0c1e => some .ROLL
  | 0x0c22 => some .HFLEX
  | 0x0c23 => some .FLEX
  | 0x0c24 => some .HFLEX1
  | 0x0c25 => some .FLEX1
  | _ => none

/-- The slice of the `CFF` object that the charstring interpreter reads. -/
structure CFF where
  charstringtype : Option ℚ
  localsubs : List (List Nat)
  globalsub : List (List Nat)
  defaultwidth : ℚ
  nominalwidth : ℚ

/-- The subroutine-index bias of `CharString.readcharstr`:
0 for charstring type 1, else 107 / 1131 / 32768 by subroutine count. -/
def subrBias (charstringtype : ℚ) (count : Nat) : Nat :=
  if charstringtype = 1 then 0
  else if count < 1240 then 107
  else if count < 33900 then 1131
  else 32768

/-- Python `int(q)`: truncation toward zero. -/
def intTrunc (q : ℚ) : Int :=
  if 0 ≤ q then Int.floor q else Int.ceil q

/-- The mutable state of a `CharString` object. -/
structure CSState where
  stack : List ℚ
  operators : List CSOp
  operands : List (List ℚ)
  nhints : Nat
deriving DecidableEq, Repr

/-- `CharString.append`: record the operator with the current stack as its
operands and clear the stack. -/
def CSState.append (st : CSState) (op : CSOp) : CSState :=
  { st with operators := st.operators ++ [op],
            operands := st.operands ++ [st.stack],
            stack := [] }

/-- `CharString.addwidth` (all call sites guarantee a nonempty stack). -/
def CSState.addwidth (st : CSState) : CSState :=
  match st.stack with
  | [] => st
  | s0 :: rest =>
      { st with operators := st.operators ++ [.WIDTH],
                operands := st.operands ++ [[s0]],
                stack := rest }

def CSState.lenstack (st : CSState) : Nat := st.stack.length

/-- The width-deduction block run when the first operator is seen. -/
def widthDeduce (st : CSState) (key : CSOp) : CSState :=
  if st.operators = [] then
    if (key = .CNTRMASK ∨ key = .ENDCHAR) ∧ st.lenstack = 1 then st.addwidth
    else if ((key = .HMOVETO ∨ key = .VMOVETO) ∧ st.lenstack > 1) ∨
            (key = .RMOVETO ∧ st.lenstack > 2) then st.addwidth
    else if (key = .HSTEM ∨ key = .HSTEMHM ∨ key = .VSTEM ∨ key = .VSTEMHM ∨
             key = .HINTMASK) ∧ st.lenstack % 2 ≠ 0 then st.addwidth
    else st
  else st

/-- The implied-`VSTEMHM` synthesis at a `hintmask`/`cntrmask` operator. -/
def hintmaskImplied (st : CSState) : CSState :=
  if st.operators ≠ [] ∧ st.operators.getLast? = some .HSTEMHM ∧ st.lenstack > 0 then
    ({ st with nhints := st.nhints + st.lenstack / 2 }).append .VSTEMHM
  else if st.operators = [] ∨
      (st.operators.length = 1 ∧ st.operators.get? 0 = some .WIDTH) then
    ({ st with nhints := st.nhints + st.lenstack / 2 }).append .VSTEMHM
  else st

inductive CSErr where
  | fuelout
  | indexErr
  | truncated
  | unpackErr
  | assertFail
  | notimpl
  | badbyte
deriving DecidableEq, Repr

/-- `CharString.readcharstr`: scan the charstring bytes into operator and
operand lists.  An unrecognized operator key `break`s out of the loop (the
raise is commented out in the source), returning the state built so far.
`fuel` bounds the subroutine-call recursion depth, which Python leaves
unbounded. -/
def readcharstrF (fuel : Nat) (cff : CFF) (st : CSState) (buf : List Nat) :
    Except CSErr CSState :=
  match buf, fuel with
  | [], _ => .ok st
  | _ :: _, 0 => .error .fuelout
  | b0 :: rest, fuel + 1 =>
    if b0 ≤ 27 ∨ (29 ≤ b0 ∧ b0 ≤ 31) then
      let keyn : Except CSErr (Nat × Nat) :=
        if b0 = 12 then
          match rest.head? with
          | some b1 => .ok (b0 * 256 + b1, 2)
          | none => .error .truncated
        else .ok (b0, 1)
      match keyn with
      | .error e => .error e
      | .ok (keyv, nbytes) =>
        match toCSOp keyv with
        | none => .ok st
        | some key =>
          let st1 := widthDeduce st key
          if key = .CALLSUBR ∨ key = .CALLGSUBR then
            let sublist := if key = .CALLSUBR then cff.localsubs else cff.globalsub
            let bias := subrBias (cff.charstringtype.getD 2) sublist.length
            match st1.stack.getLast? with
            | none => .error .indexErr
            | some top =>
              let idx := intTrunc (top + (bias : ℚ))
              match pyGetL sublist idx with
              | none => .error .indexErr
              | some subchstr =>
                let st2 := { st1 with stack := st1.stack.dropLast }
                match readcharstrF fuel cff st2 subchstr with
                | .error e => .error e
                | .ok st3 => readcharstrF fuel cff st3 (rest.drop (nbytes - 1))
          else
            let p : CSState × Nat :=
              if key = .HINTMASK ∨ key = .CNTRMASK then
                let stm := hintmaskImplied st1
                let hintbytes := (stm.nhints + 7) / 8
                ({ stm with stack := (rest.take hintbytes).map (fun b => (b : ℚ)) },
                  hintbytes)
              else if key = .HSTEM ∨ key = .HSTEMHM ∨ key = .VSTEM ∨ key = .VSTEMHM then
                ({ st1 with nhints := st1.nhints + st1.lenstack / 2 }, nbytes - 1)
              else (st1, nbytes - 1)
            let st3 := if key ≠ .RETURN then p.1.append key else p.1
            readcharstrF fuel cff st3 (rest.drop p.2)
    else if b0 = 28 then
      match rest with
      | b1 :: b2 :: t2 =>
          readcharstrF fuel cff
            { st with stack := st.stack ++ [(toSigned 16 (b1 * 256 + b2) : ℚ)] } t2
      | _ => .error .truncated
    else if 32 ≤ b0 ∧ b0 ≤ 246 then
      readcharstrF fuel cff
        { st with stack := st.stack ++ [((b0 : Int) - 139 : ℚ)] } rest
    else if 247 ≤ b0 ∧ b0 ≤ 250 then
      match rest with
      | b1 :: t1 =>
          readcharstrF fuel cff
            { st with stack := st.stack ++
                [((((b0 : Int) - 247) * 256 + b1 + 108 : Int) : ℚ)] } t1
      | [] => .error .indexErr
    else if 251 ≤ b0 ∧ b0 ≤ 254 then
      match rest with
      | b1 :: t1 =>
          readcharstrF fuel cff
            { st with stack := st.stack ++
                [((-((b0 : Int) - 251) * 256 - b1 - 108 : Int) : ℚ)] } t1
      | [] => .error .indexErr
    else if b0 = 255 then
      match rest with
      | b1 :: b2 :: b3 :: b4 :: t4 =>
          readcharstrF fuel cff
            { st with stack := st.stack ++
                [((toSigned 32 (beval [b1, b2, b3, b4]) : ℚ) / 0x10000)] } t4
      | _ => .error .truncated
    else .error .badbyte

/-! ## `svgpath.py` and `charstr2path` -/

structure Pt where
  x : ℚ
  y : ℚ
deriving DecidableEq, Repr

instance : Add Pt := ⟨fun a b => ⟨a.x + b.x, a.y + b.y⟩⟩

/-- The path operators emitted by the charstring interpreter. -/
inductive SVGOp where
  | moveto (p : Pt)
  | lineto (p : Pt)
  | quad (p1 p2 : Pt)
  | cubic (p1 p2 p3 : Pt)
deriving DecidableEq, Repr

def SVGOp.xmin : SVGOp → ℚ
  | .moveto p => p.x
  | .lineto p => p.x
  | .quad p1 p2 => min p1.x p2.x
  | .cubic p1 p2 p3 => min p1.x (min p2.x p3.x)

def SVGOp.xmax : SVGOp → ℚ
  | .moveto p => p.x
  | .lineto p => p.x
  | .quad p1 p2 => max p1.x p2.x
  | .cubic p1 p2 p3 => max p1.x (max p2.x p3.x)

def SVGOp.ymin : SVGOp → ℚ
  | .moveto p => p.y
  | .lineto p => p.y
  | .quad p1 p2 => min p1.y p2.y
  | .cubic p1 p2 p3 => min p1.y (min p2.y p3.y)

def SVGOp.ymax : SVGOp → ℚ
  | .moveto p => p.y
  | .lineto p => p.y
  | .quad p1 p2 => max p1.y p2.y
  | .cubic p1 p2 p3 => max p1.y (max p2.y p3.y)

structure BBox where
  xmin : ℚ
  xmax : ℚ
  ymin : ℚ
  ymax : ℚ
deriving DecidableEq, Repr

/-- `min/max` over all operators; the empty case is the `ValueError`
handler that zeroes the box. -/
def opsBBox : List SVGOp → BBox
  | [] => ⟨0, 0, 0, 0⟩
  | o :: rest =>
      rest.foldl
        (fun bb o2 =>
          ⟨min bb.xmin o2.xmin, max bb.xmax o2.xmax,
           min bb.ymin o2.ymin, max bb.ymax o2.ymax⟩)
        ⟨o.xmin, o.xmax, o.ymin, o.ymax⟩

/-- Consecutive pairs `zip(value[::2], value[1::2])` (odd leftover dropped). -/
def pairsOf : List ℚ → List (ℚ × ℚ)
  | a :: b :: t => (a, b) :: pairsOf t
  | _ => []

/-- `rlineto`: one line per (dx, dy) pair. -/
def rlinetoSteps (p : Pt) : List (ℚ × ℚ) → Pt × List SVGOp
  | [] => (p, [])
  | (dx, dy) :: t =>
      let p2 := p + ⟨dx, dy⟩
      let r := rlinetoSteps p2 t
      (r.1, .lineto p2 :: r.2)

/-- `hlineto`/`vlineto`: alternating horizontal/vertical lines. -/
def altLineto (horiz : Bool) (p : Pt) : List ℚ → Pt × List SVGOp
  | [] => (p, [])
  | v :: t =>
      let p2 := if horiz then p + ⟨v, 0⟩ else p + ⟨0, v⟩
      let r := altLineto (!horiz) p2 t
      (r.1, .lineto p2 :: r.2)

/-- The `while len(value) > 2` curve loop of `rrcurveto`/`rcurveline`;
returns the end point, the emitted cubics and the unconsumed operands. -/
def rrcurves (p : Pt) (value : List ℚ) : Except CSErr (Pt × List SVGOp × List ℚ) :=
  if value.length > 2 then
    match value with
    | dxa :: dya :: dxb :: dyb :: dxc :: dyc :: t =>
        let p1 := p + ⟨dxa, dya⟩
        let p2 := p1 + ⟨dxb, dyb⟩
        let p3 := p2 + ⟨dxc, dyc⟩
        (rrcurves p3 t).map (fun r => (r.1, .cubic p1 p2 p3 :: r.2.1, r.2.2))
    | _ => .error .unpackErr
  else .ok (p, [], value)
termination_by value.length
decreasing_by simp only [List.length_cons]; omega

/-- The `while len(value) > 6` line loop of `rlinecurve`. -/
def rlinecurveLines (p : Pt) (value : List ℚ) : Pt × List SVGOp × List ℚ :=
  if h : value.length > 6 then
    match value with
    | v0 :: v1 :: t =>
        let p2 := p + ⟨v0, v1⟩
        let r := rlinecurveLines p2 t
        (r.1, .lineto p2 :: r.2.1, r.2.2)
  else (p, [], value)
termination_by value.length
decreasing_by simp only [List.length_cons]; omega

/-- The `while len(value) >= 4` loop of `hhcurveto` (`dya` applies to the
first curve only). -/
def hhcurves (p : Pt) (dya : ℚ) : List ℚ → Pt × List SVGOp
  | dxa :: dxb :: dyb :: dxc :: t =>
      let p1 := p + ⟨dxa, dya⟩
      let p2 := p1 + ⟨dxb, dyb⟩
      let p3 := p2 + ⟨dxc, 0⟩
      let r := hhcurves p3 0 t
      (r.1, .cubic p1 p2 p3 :: r.2)
  | _ => (p, [])

/-- The `while len(value) >= 4` loop of `vvcurveto`. -/
def vvcurves (p : Pt) (dxa : ℚ) : List ℚ → Pt × List SVGOp
  | dya :: dxb :: dyb :: dyc :: t =>
      let p1 := p + ⟨dxa, dya⟩
      let p2 := p1 + ⟨dxb, dyb⟩
      let p3 := p2 + ⟨0, dyc⟩
      let r := vvcurves p3 0 t
      (r.1, .cubic p1 p2 p3 :: r.2)
  | _ => (p, [])

/-- The vertical-then-horizontal 8-operand loop (`hvcurveto` with a leading
4-group, and the `vhcurveto` trailing-remainder branch): a trailing 9th
operand supplies the final x. -/
def hvloop1 (p : Pt) (value : List ℚ) : Pt × List SVGOp :=
  if h : value.length ≥ 8 then
    match value with
    | dya :: dxb :: dyb :: dxc :: dxd :: dxe :: dye :: dyf :: t =>
        let dxf := if value.length = 9 then value.getLastD 0 else 0
        let p1 := p + ⟨0, dya⟩
        let p2 := p1 + ⟨dxb, dyb⟩
        let p3 := p2 + ⟨dxc, 0⟩
        let p4 := p3 + ⟨dxd, 0⟩
        let p5 := p4 + ⟨dxe, dye⟩
        let p6 := p5 + ⟨dxf, dyf⟩
        let r := hvloop1 p6 t
        (r.1, .cubic p1 p2 p3 :: .cubic p4 p5 p6 :: r.2)
  else (p, [])
termination_by value.length
decreasing_by simp only [List.length_cons]; omega

/-- The horizontal-then-vertical 8-operand loop (`vhcurveto` with a leading
4-group, and the `hvcurveto` trailing-remainder branch): a trailing 9th
operand supplies the final y. -/
def hvloop2 (p : Pt) (value : List ℚ) : Pt × List SVGOp :=
  if h : value.length ≥ 8 then
    match value with
    | dxa :: dxb :: dyb :: dyc :: dyd :: dxe :: dye :: dxf :: t =>
        let dyf := if value.length = 9 then value.getLastD 0 else 0
        let p1 := p + ⟨dxa, 0⟩
        let p2 := p1 + ⟨dxb, dyb⟩
        let p3 := p2 + ⟨0, dyc⟩
        let p4 := p3 + ⟨0, dyd⟩
        let p5 := p4 + ⟨dxe, dye⟩
        let p6 := p5 + ⟨dxf, dyf⟩
        let r := hvloop2 p6 t
        (r.1, .cubic p1 p2 p3 :: .cubic p4 p5 p6 :: r.2)
  else (p, [])
termination_by value.length
decreasing_by simp only [List.length_cons]; omega

/-- The per-`charstr2path`-iteration state: current point, width, and the
emitted path operators (in order). -/
structure PathState where
  p : Pt
  width : ℚ
  operators : List SVGOp
deriving DecidableEq, Repr

/-- Append emitted operators and move the current point. -/
def PathState.emit (s : PathState) (p2 : Pt) (ops : List SVGOp) : PathState :=
  { s with p := p2, operators := s.operators ++ ops }

/-- One iteration of the `for op, value in zip(...)` loop of
`charstr2path`.  Order of the cases follows the source; operators in the
final membership list are hint/flow no-ops, anything else raises
`NotImplementedError`. -/
def pathStep (cff : CFF) (s : PathState) : CSOp × List ℚ → Except CSErr PathState
  | (.WIDTH, value) =>
      match value with
      | v0 :: _ => .ok { s with width := cff.nominalwidth + (intTrunc v0 : ℚ) }
      | [] => .error .indexErr
  | (.RMOVETO, value) =>
      match value with
      | v0 :: v1 :: _ =>
          let p2 := s.p + ⟨v0, v1⟩
          .ok (s.emit p2 [.moveto p2])
      | _ => .error .indexErr
  | (.HMOVETO, value) =>
      match value with
      | v0 :: _ =>
          let p2 := s.p + ⟨v0, 0⟩
          .ok (s.emit p2 [.moveto p2])
      | [] => .error .indexErr
  | (.VMOVETO, value) =>
      match value with
      | v0 :: _ =>
          let p2 := s.p + ⟨0, v0⟩
          .ok (s.emit p2 [.moveto p2])
      | [] => .error .indexErr
  | (.HLINETO, value) =>
      let r := altLineto true s.p value
      .ok (s.emit r.1 r.2)
  | (.VLINETO, value) =>
      let r := altLineto false s.p value
      .ok (s.emit r.1 r.2)
  | (.RLINETO, value) =>
      let r := rlinetoSteps s.p (pairsOf value)
      .ok (s.emit r.1 r.2)
  | (.RRCURVETO, value) =>
      (rrcurves s.p value).map (fun r => s.emit r.1 r.2.1)
  | (.RCURVELINE, value) => do
      let r ← rrcurves s.p value
      match r.2.2 with
      | v0 :: v1 :: _ =>
          let p2 := r.1 + ⟨v0, v1⟩
          .ok (s.emit p2 (r.2.1 ++ [.lineto p2]))
      | _ => .error .assertFail
  | (.RLINECURVE, value) =>
      let r := rlinecurveLines s.p value
      match r.2.2 with
      | dxa :: dya :: dxb :: dyb :: dxc :: dyc :: _ =>
          let p1 := r.1 + ⟨dxa, dya⟩
          let p2 := p1 + ⟨dxb, dyb⟩
          let p3 := p2 + ⟨dxc, dyc⟩
          .ok (s.emit p3 (r.2.1 ++ [.cubic p1 p2 p3]))
      | _ => .error .unpackErr
  | (.HHCURVETO, value) =>
      let q : ℚ × List ℚ :=
        if value.length % 4 ≥ 1 then (value.headD 0, value.tail) else (0, value)
      let r := hhcurves s.p q.1 q.2
      .ok (s.emit r.1 r.2)
  | (.VVCURVETO, value) =>
      let q : ℚ × List ℚ :=
        if value.length % 4 ≥ 1 then (value.headD 0, value.tail) else (0, value)
      let r := vvcurves s.p q.1 q.2
      .ok (s.emit r.1 r.2)
  | (.HVCURVETO, value) =>
      if value.length % 8 ≥ 4 then
        match value with
        | dx1 :: dx2 :: dy2 :: dy3 :: t =>
            let p1 := s.p + ⟨dx1, 0⟩
            let p2 := p1 + ⟨dx2, dy2⟩
            let p3 := p2 + ⟨0, dy3⟩
            let p3b := if value.length = 5 then p3 + ⟨value.getLastD 0, 0⟩ else p3
            let r := hvloop1 p3b t
            .ok (s.emit r.1 (.cubic p1 p2 p3b :: r.2))
        | _ => .error .unpackErr
      else
        let r := hvloop2 s.p value
        .ok (s.emit r.1 r.2)
  | (.VHCURVETO, value) =>
      if value.length % 8 ≥ 4 then
        match value with
        | dy1 :: dx2 :: dy2 :: dx3 :: t =>
            let p1 := s.p + ⟨0, dy1⟩
            let p2 := p1 + ⟨dx2, dy2⟩
            let p3 := p2 + ⟨dx3, 0⟩
            let p3b := if value.length = 5 then p3 + ⟨0, value.getLastD 0⟩ else p3
            let r := hvloop2 p3b t
            .ok (s.emit r.1 (.cubic p1 p2 p3b :: r.2))
        | _ => .error .unpackErr
      else
        let r := hvloop1 s.p value
        .ok (s.emit r.1 r.2)
  | (.FLEX, value) =>
      match value with
      | dx1 :: dy1 :: dx2 :: dy2 :: dx3 :: dy3 :: dx4 :: dy4 :: dx5 :: dy5 :: dx6 :: dy6 :: _ =>
          let p1 := s.p + ⟨dx1, dy1⟩
          let p2 := p1 + ⟨dx2, dy2⟩
          let p3 := p2 + ⟨dx3, dy3⟩
          let p4 := p3 + ⟨dx4, dy4⟩
          let p5 := p4 + ⟨dx5, dy5⟩
          let p6 := p5 + ⟨dx6, dy6⟩
          .ok (s.emit p6 [.cubic p1 p2 p3, .cubic p4 p5 p6])
      | _ => .error .unpackErr
  | (.FLEX1, value) =>
      match value with
      | dx1 :: dy1 :: dx2 :: dy2 :: dx3 :: dy3 :: dx4 :: dy4 :: dx5 :: dy5 :: d6 :: _ =>
          let dx := dx1 + dx2 + dx3 + dx4 + dx5
          let dy := dy1 + dy2 + dy3 + dy4 + dy5
          let p1 := s.p + ⟨dx1, dy1⟩
          let p2 := p1 + ⟨dx2, dy2⟩
          let p3 := p2 + ⟨dx3, dy3⟩
          let p4 := p3 + ⟨dx4, dy4⟩
          let p5 := p4 + ⟨dx5, dy5⟩
          let p6 := if |dx| > |dy| then p5 + ⟨d6, 0⟩ else p5 + ⟨0, d6⟩
          .ok (s.emit p6 [.cubic p1 p2 p3, .cubic p4 p5 p6])
      | _ => .error .unpackErr
  | (.HFLEX, value) =>
      match value with
      | dx1 :: dx2 :: dy2 :: dx3 :: dx4 :: dx5 :: dx6 :: _ =>
          let p1 := s.p + ⟨dx1, 0⟩
          let p2 := p1 + ⟨dx2, dy2⟩
          let p3 := p2 + ⟨dx3, 0⟩
          let p4 := p3 + ⟨dx4, 0⟩
          let p5 := p4 + ⟨dx5, 0⟩
          let p6 := p5 + ⟨dx6, 0⟩
          .ok (s.emit p6 [.cubic p1 p2 p3, .cubic p4 p5 p6])
      | _ => .error .unpackErr
  | (.HFLEX1, value) =>
      match value with
      | dx1 :: dy1 :: dx2 :: dy2 :: dx3 :: dx4 :: dx5 :: dy5 :: dx6 :: _ =>
          let p1 := s.p + ⟨dx1, dy1⟩
          let p2 := p1 + ⟨dx2, dy2⟩
          let p3 := p2 + ⟨dx3, 0⟩
          let p4 := p3 + ⟨dx4, 0⟩
          let p5 := p4 + ⟨dx5, dy5⟩
          let p6 := p5 + ⟨dx6, 0⟩
          .ok (s.emit p6 [.cubic p1 p2 p3, .cubic p4 p5 p6])
      | _ => .error .unpackErr
  | (op, _) =>
      if op = .HSTEM ∨ op = .HINTMASK ∨ op = .VSTEM ∨ op = .VSTEMHM ∨
         op = .HSTEMHM ∨ op = .RETURN ∨ op = .CNTRMASK ∨ op = .ENDCHAR then
        .ok s
      else .error .notimpl

/-- `charstr2path`: run the charstring reader, then fold the operator list
into path operators.  The boolean result records whether the
missing-`ENDCHAR` warning fired (a warning only: the outline is still
returned). -/
def charstr2path (fuel : Nat) (cff : CFF) (charstr : List Nat) :
    Except CSErr (List SVGOp × ℚ × BBox × Bool) := do
  let chstate ← readcharstrF fuel cff ⟨[], [], [], 0⟩ charstr
  let zipped := chstate.operators.zip chstate.operands
  let s ← zipped.foldlM (pathStep cff) ⟨⟨0, 0⟩, cff.defaultwidth, []⟩
  let lastOp := (zipped.getLast?).map (fun e => e.1)
  let warned := decide (lastOp ≠ some CSOp.ENDCHAR)
  .ok (s.operators, s.width, opsBBox s.operators, warned)

/-! ## Frame predicates for the substitution heap semantics -/

/-- `h'` extends `h` and agrees with it on every cell except possibly `r`. -/
def FrameH (h : Heap) (r : Nat) (h' : Heap) : Prop :=
  h.length ≤ h'.length ∧ ∀ q, q < h.length → q ≠ r → heapRead h' q = heapRead h q

/-- Frame of a subtable run: besides `FrameH`, the returned reference is
either the argument reference or a freshly allocated one. -/
def FrameS (h : Heap) (r : Nat) (out : Heap × Nat) : Prop :=
  FrameH h r out.1 ∧ (out.2 = r ∨ h.length ≤ out.2)

/-- Frame of a lookup run: every pre-existing cell (the argument included)
is untouched and the returned reference is fresh. -/
def FrameL (h : Heap) (out : Heap × Nat) : Prop :=
  h.length ≤ out.1.length ∧ (∀ q, q < h.length → heapRead out.1 q = heapRead h q) ∧
    h.length ≤ out.2

/-! ## Concrete fixtures -/

/-- Format-4 cmap fixture: single segment `(start=65, end=90, idDelta=3,
idRangeOffset=0)`. -/
def cmapFixtureA : Cmap4 := ⟨[65], [90], [0], [3], []⟩

/-- Pair-adjustment fixture: pair set on first glyph 5 containing
`(secondGlyph=6, value1={xAdvance:-20}, value2={})`. -/
def pairFixtureSub : GposSubtable :=
  .pair1 (Coverage.fmt1 [5])
    [[⟨6, { xadvance := some (-20) }, {}⟩]]

/-- A GPOS engine whose only feature is the permanent feature `mark`
holding one lookup with the pair-adjustment fixture, so it is active even
with an empty user-feature set. -/
def gposPairFixture : Gpos := ⟨[("mark", [⟨[pairFixtureSub]⟩])]⟩

/-- A CFF context with no subroutines (used by concrete charstring runs). -/
def cffFixture : CFF := ⟨none, [], [], 0, 0⟩

/-- The dict writes of `Cmap4.__init__` for segment `seg` (one block of
`rawEntries`). -/
def Cmap4.segBlock (cm : Cmap4) (seg : Nat) : List (Nat × Option Nat) :=
  (List.range' (cm.startcodes.getD seg 0)
      (cm.endcodes.getD seg 0 + 1 - cm.startcodes.getD seg 0)).map
    (fun i => (i, cm.seggid seg i))

instance {ε α : Type} [DecidableEq ε] [DecidableEq α] : DecidableEq (Except ε α) :=
  fun a b =>
    match a, b with
    | .error e1, .error e2 =>
        if h : e1 = e2 then isTrue (by rw [h])
        else isFalse (by intro hc; cases hc; exact h rfl)
    | .ok v1, .ok v2 =>
        if h : v1 = v2 then isTrue (by rw [h])
        else isFalse (by intro hc; cases hc; exact h rfl)
    | .error e1, .ok v2 => isFalse (by intro hc; cases hc)
    | .ok v1, .error e2 => isFalse (by intro hc; cases hc)

/-- A single-substitution GSUB lookup used as a concrete fixture. -/
def gsubSingleLookup : GsubLookup := ⟨[.single1 (Coverage.fmt1 [10]) 5]⟩

/-- A GSUB engine with one user feature `liga` holding `gsubSingleLookup`. -/
def gsubFixture : Gsub := ⟨[("liga", [gsubSingleLookup])], [gsubSingleLookup]⟩

/-- Folding a flat list of GPOS lookups over a running delta list (the
shape of the double loop inside `Gpos.position`). -/
def gposFoldLk (gids advances : List Int) (lks : List GposLookup)
    (init : List PositionDelta) : Option (List PositionDelta) :=
  lks.foldlM (fun d table => (table.adjust gids advances).map (merge_deltas d)) init

/-!
# Theorems
-/

/-! ## General helper lemmas -/

theorem merge_delta_zero_left (d : PositionDelta) : merge_delta zeroDelta d = d := by
  cases d; simp [merge_delta, zeroDelta]

theorem find?_eq_head?_filter {α : Type} (p : α → Bool) (l : List α) :
    l.find? p = (l.filter p).head? := by
  induction l with
  | nil => rfl
  | cons a t ih =>
      by_cases h : p a
      · simp [List.find?, List.filter, h]
      · simp only [List.find?, List.filter, h]
        simpa [h] using ih

theorem widthDeduce_callsubr (st : CSState) : widthDeduce st .CALLSUBR = st := by
  unfold widthDeduce
  split
  · simp
  · rfl

/-- Definitional unfolding of `readcharstrF` at a `callsubr` byte. -/
theorem readcharstr_callsubr_step (fuel : Nat) (cff : CFF) (st : CSState)
    (rest : List Nat) :
    readcharstrF (fuel + 1) cff st (10 :: rest) =
      (match (widthDeduce st .CALLSUBR).stack.getLast? with
       | none => .error .indexErr
       | some top =>
          match pyGetL cff.localsubs
              (intTrunc (top + (subrBias (cff.charstringtype.getD 2)
                cff.localsubs.length : Nat))) with
          | none => .error .indexErr
          | some subchstr =>
              match readcharstrF fuel cff
                  { widthDeduce st .CALLSUBR with
                    stack := (widthDeduce st .CALLSUBR).stack.dropLast } subchstr with
              | .error e => .error e
              | .ok st3 => readcharstrF fuel cff st3 rest) := rfl

/-! ## C3: subroutine bias -/

/-- C3: in `readcharstr`, `callsubr`/`callgsubr` use the bias `subrBias`
(0 when the charstring type is 1; otherwise 107, 1131 or 32768 by
subroutine count, with 1239/1240/33899/33900 on the boundaries), added to
the popped top-of-stack index before indexing the subroutine list. -/
theorem c3_callsubr_bias :
    (∀ t : ℚ, ∀ count : Nat,
      (t = 1 → subrBias t count = 0) ∧
      (t ≠ 1 → count < 1240 → subrBias t count = 107) ∧
      (t ≠ 1 → 1240 ≤ count → count < 33900 → subrBias t count = 1131) ∧
      (t ≠ 1 → 33900 ≤ count → subrBias t count = 32768)) ∧
    subrBias 2 1239 = 107 ∧ subrBias 2 1240 = 1131 ∧
    subrBias 2 33899 = 1131 ∧ subrBias 2 33900 = 32768 ∧
    (∀ (cff : CFF) (st : CSState) (fuel : Nat) (rest : List Nat)
        (stk : List ℚ) (s : ℚ) (sub : List Nat),
      st.stack = stk ++ [s] →
      pyGetL cff.localsubs
          (intTrunc (s + (subrBias (cff.charstringtype.getD 2)
            cff.localsubs.length : Nat))) = some sub →
      readcharstrF (fuel + 1) cff st (10 :: rest) =
        match readcharstrF fuel cff { st with stack := stk } sub with
        | .error e => .error e
        | .ok st3 => readcharstrF fuel cff st3 rest) := by
  refine ⟨?_, by norm_num [subrBias], by norm_num [subrBias],
    by norm_num [subrBias], by norm_num [subrBias], ?_⟩
  · intro t count
    refine ⟨?_, ?_, ?_, ?_⟩
    · intro h1; simp [subrBias, h1]
    · intro h1 h2; simp [subrBias, h1, h2]
    · intro h1 h2 h3
      simp [subrBias, h1, h3, show ¬ count < 1240 by omega]
    · intro h1 h2
      simp [subrBias, h1, show ¬ count < 1240 by omega, show ¬ count < 33900 by omega]
  · intro cff st fuel rest stk s sub hstack hget
    rw [readcharstr_callsubr_step]
    simp only [widthDeduce_callsubr, hstack]
    simp only [List.getLast?_append, List.getLast?_singleton, Option.or_some]
    rw [hget]
    simp [List.dropLast_concat]

/-- Witness for `c3_callsubr_bias` at concrete inputs. -/
theorem c3_callsubr_bias_witness :
    subrBias 2 1239 = 107 ∧ subrBias 2 1240 = 1131 ∧ subrBias 2 33900 = 32768 ∧
    readcharstrF 2 ⟨none, [[14]], [], 0, 0⟩ ⟨[-107], [], [], 0⟩ [10] =
      .ok ⟨[], [.ENDCHAR], [[]], 0⟩ := by
  have h := c3_callsubr_bias
  refine ⟨(h.1 2 1239).2.1 (by norm_num) (by norm_num),
          (h.1 2 1240).2.2.1 (by norm_num) (by norm_num) (by norm_num),
          (h.1 2 33900).2.2.2 (by norm_num) (by norm_num), ?_⟩
  have h6 := h.2.2.2.2.2 ⟨none, [[14]], [], 0, 0⟩ ⟨[-107], [], [], 0⟩ 1 [] [] (-107) [14]
    rfl (by norm_num [pyGetL, intTrunc, subrBias])
  rw [h6]
  rfl

/-! ## C4: advance width beyond the hmtx array -/

/-- C4 counterexample: the claim says glyphs past the end of `advwidths`
reuse the *last* stored advance (here 20); the code returns
`advwidthmax.width` from the `hhea` table (here 99). -/
theorem c4_counterexample :
    FontModel.advance ⟨[⟨10, 0⟩, ⟨20, 0⟩], ⟨99, 0⟩, [], none⟩ 5 none = some 99 ∧
    (some (99 : Int) ≠ some (20 : Int)) := by
  constructor
  · rfl
  · decide

/-- C4 (amended): for every glyph id at or beyond the end of the `hmtx`
advance array, `Font.advance` (with no following glyph) returns the
`hhea` table's `advwidthmax` width. -/
theorem c4_advance_fallback (f : FontModel) (glyph : Nat)
    (h : f.advwidths.length ≤ glyph) :
    f.advance glyph none = some (f.advwidthmax.width : Int) := by
  have hbase : f.advanceBase glyph = f.advwidthmax.width := by
    unfold FontModel.advanceBase
    rw [List.get?_eq_none.mpr h]
  unfold FontModel.advance
  simp [glyph2Truthy, hbase]

/-- Witness for `c4_advance_fallback`. -/
theorem c4_advance_fallback_witness :
    FontModel.advance ⟨[⟨10, 0⟩, ⟨20, 0⟩], ⟨99, 0⟩, [], none⟩ 7 none = some 99 :=
  c4_advance_fallback ⟨[⟨10, 0⟩, ⟨20, 0⟩], ⟨99, 0⟩, [], none⟩ 7 (by norm_num)

/-! ## C6: single adjustment format 2 -/

/-- C6: the walrus precedence slip in `SingleAdjustmentSubtable2.adjust`
(`covidx := self.coverage.covidx(gid) is not None` binds the boolean) makes
every covered glyph read `valuerecords[True]`, i.e. record 1; here glyph 7
has coverage index 0 but gets record 1's delta `(2, 0, 0)` instead of
record 0's `(1, 0, 0)`. -/
theorem c6_single2_walrus_bug :
    GposSubtable.adjust
        (.single2 (Coverage.fmt1 [7, 8])
          [{ x := some 1 }, { x := some 2 }]) [7] [] =
      some [⟨2, 0, 0⟩] ∧
    ((⟨2, 0, 0⟩ : PositionDelta) ≠ ⟨1, 0, 0⟩) := by
  constructor
  · rfl
  · decide

/-! ## C8: optional-offset reads -/

theorem unpackU_pos {r : FontReader} {w v : Nat} {r2 : FontReader}
    (h : r.unpackU w = .ok (v, r2)) : r2.pos = r.pos + w := by
  unfold FontReader.unpackU FontReader.readBytes at h
  by_cases hlen : ((r.data.drop r.pos).take w).length = w
  · rw [if_pos hlen] at h
    cases h
    simp [hlen]
  · rw [if_neg hlen] at h
    cases h

theorem readint16_pos {r : FontReader} {v : Int} {r2 : FontReader}
    (h : r.readint16 none = .ok (v, r2)) : r2.pos = r.pos + 2 := by
  unfold FontReader.readint16 withOffset offsetTruthy at h
  simp only [Bool.false_eq_true, if_false] at h
  cases hu : r.unpackU 2 with
  | error e => rw [hu] at h; cases h
  | ok p =>
      rw [hu] at h
      cases h
      exact @unpackU_pos _ _ p.1 p.2 (by rw [hu])

/-- C8 counterexample: with the cursor at 2 over `[0,1,2,3]`, supplying
offset 0 does *not* seek (Python `if offset:` treats 0 as falsy): the read
returns the bytes at the cursor (value 515), not the bytes at offset 0
(value 1) that the claim requires. -/
theorem c8_counterexample :
    FontReader.readuint16 ⟨[0, 1, 2, 3], 2⟩ (some 0) = .ok (515, ⟨[0, 1, 2, 3], 4⟩) ∧
    FontReader.readuint16 (FontReader.seek ⟨[0, 1, 2, 3], 2⟩ 0) none =
      .ok (1, ⟨[0, 1, 2, 3], 2⟩) ∧
    (515 : Nat) ≠ 1 := by
  refine ⟨rfl, rfl, by norm_num⟩

/-- C8 (amended): for every optional-offset read, `None` *and* `0` continue
from the current cursor (only a nonzero offset seeks first), and every
successful read advances the cursor past the bytes consumed. -/
theorem c8_reader_offsets (r : FontReader) (n : Nat) (hn : n ≠ 0) :
    (r.readuint32 (some 0) = r.readuint32 none ∧
     r.readuint24 (some 0) = r.readuint24 none ∧
     r.readuint16 (some 0) = r.readuint16 none ∧
     r.readuint8 (some 0) = r.readuint8 none ∧
     r.readint8 (some 0) = r.readint8 none ∧
     r.readint16 (some 0) = r.readint16 none ∧
     r.readshort (some 0) = r.readshort none ∧
     r.readdate (some 0) = r.readdate none) ∧
    (r.readuint32 (some n) = (r.seek n).readuint32 none ∧
     r.readuint24 (some n) = (r.seek n).readuint24 none ∧
     r.readuint16 (some n) = (r.seek n).readuint16 none ∧
     r.readuint8 (some n) = (r.seek n).readuint8 none ∧
     r.readint8 (some n) = (r.seek n).readint8 none ∧
     r.readint16 (some n) = (r.seek n).readint16 none ∧
     r.readshort (some n) = (r.seek n).readshort none ∧
     r.readdate (some n) = (r.seek n).readdate none) ∧
    ((∀ v r2, r.readuint32 none = .ok (v, r2) → r2.pos = r.pos + 4) ∧
     (∀ v r2, r.pos + 3 ≤ r.data.length → r.readuint24 none = .ok (v, r2) →
        r2.pos = r.pos + 3) ∧
     (∀ v r2, r.readuint16 none = .ok (v, r2) → r2.pos = r.pos + 2) ∧
     (∀ v r2, r.readuint8 none = .ok (v, r2) → r2.pos = r.pos + 1) ∧
     (∀ v r2, r.readint8 none = .ok (v, r2) → r2.pos = r.pos + 1) ∧
     (∀ v r2, r.readint16 none = .ok (v, r2) → r2.pos = r.pos + 2) ∧
     (∀ v r2, r.readshort none = .ok (v, r2) → r2.pos = r.pos + 2) ∧
     (∀ v r2, r.readdate none = .ok (v, r2) → r2.pos = r.pos + 8)) := by
  refine ⟨⟨rfl, rfl, rfl, rfl, rfl, rfl, rfl, rfl⟩, ?_, ?_⟩
  · refine ⟨?_, ?_, ?_, ?_, ?_, ?_, ?_, ?_⟩ <;>
      simp [FontReader.readuint32, FontReader.readuint24, FontReader.readuint16,
        FontReader.readuint8, FontReader.readint8, FontReader.readint16,
        FontReader.readshort, FontReader.readdate, withOffset, offsetTruthy, hn]
  · refine ⟨?_, ?_, ?_, ?_, ?_, ?_, ?_, ?_⟩
    · intro v r2 h
      exact unpackU_pos (show r.unpackU 4 = .ok (v, r2) from h)
    · intro v r2 hlen h
      unfold FontReader.readuint24 withOffset offsetTruthy FontReader.readBytes at h
      simp only [Bool.false_eq_true, if_false] at h
      cases h
      simp only
      rw [List.length_take, List.length_drop]
      omega
    · intro v r2 h
      exact unpackU_pos (show r.unpackU 2 = .ok (v, r2) from h)
    · intro v r2 h
      exact unpackU_pos (show r.unpackU 1 = .ok (v, r2) from h)
    · intro v r2 h
      unfold FontReader.readint8 withOffset offsetTruthy at h
      simp only [Bool.false_eq_true, if_false] at h
      cases hu : r.unpackU 1 with
      | error e => rw [hu] at h; cases h
      | ok p =>
          rw [hu] at h
          cases h
          exact @unpackU_pos _ _ p.1 p.2 (by rw [hu])
    · intro v r2 h
      exact readint16_pos h
    · intro v r2 h
      unfold FontReader.readshort withOffset offsetTruthy at h
      simp only [Bool.false_eq_true, if_false] at h
      cases hu : r.readint16 none with
      | error e => rw [hu] at h; cases h
      | ok p =>
          rw [hu] at h
          cases h
          exact @readint16_pos _ p.1 p.2 (by rw [hu])
    · intro v r2 h
      unfold FontReader.readdate withOffset offsetTruthy at h
      simp only [Bool.false_eq_true, if_false, bind, Except.bind] at h
      cases hu : r.readuint32 none with
      | error e => rw [hu] at h; cases h
      | ok p =>
          rw [hu] at h
          dsimp only at h
          cases hu2 : p.2.readuint32 none with
          | error e => rw [hu2] at h; cases h
          | ok p2 =>
              rw [hu2] at h
              cases h
              have e1 : p.2.pos = r.pos + 4 := by
                unfold FontReader.readuint32 withOffset offsetTruthy at hu
                simp only [Bool.false_eq_true, if_false] at hu
                exact unpackU_pos (v := p.1) hu
              have e2 : p2.2.pos = p.2.pos + 4 := by
                unfold FontReader.readuint32 withOffset offsetTruthy at hu2
                simp only [Bool.false_eq_true, if_false] at hu2
                exact unpackU_pos (v := p2.1) hu2
              omega

/-- Witness for `c8_reader_offsets` at a concrete reader and offset. -/
theorem c8_reader_offsets_witness :
    FontReader.readuint16 ⟨[9, 8, 7, 6], 0⟩ (some 2) =
      FontReader.readuint16 (FontReader.seek ⟨[9, 8, 7, 6], 0⟩ 2) none ∧
    ∀ v r2, FontReader.readuint16 ⟨[9, 8, 7, 6], 0⟩ none = .ok (v, r2) →
      r2.pos = 0 + 2 := by
  have h := c8_reader_offsets ⟨[9, 8, 7, 6], 0⟩ 2 (by norm_num)
  exact ⟨h.2.1.2.2.1, h.2.2.2.2.1⟩

/-! ## C2: ligature substitution -/

theorem ligatureSubList_nil (cov : Coverage) (ligsets : List (List LigEntry)) :
    ligatureSubList cov ligsets [] = some [] := by
  rw [ligatureSubList]

theorem ligatureSubList_uncovered (cov : Coverage) (ligsets : List (List LigEntry))
    (gid : Int) (rest : List Int) (h : cov.covidx gid = none) :
    ligatureSubList cov ligsets (gid :: rest) =
      (ligatureSubList cov ligsets rest).map (fun l => gid :: l) := by
  rw [ligatureSubList, h]

theorem ligatureSubList_match (cov : Coverage) (ligsets : List (List LigEntry))
    (gid : Int) (rest : List Int) (c : Nat) (ligset : List LigEntry) (e : LigEntry)
    (h1 : cov.covidx gid = some c) (h2 : ligsets.get? c = some ligset)
    (h3 : ligset.find? (fun e2 => rest.take e2.comps.length == e2.comps) = some e) :
    ligatureSubList cov ligsets (gid :: rest) =
      (ligatureSubList cov ligsets (rest.drop e.comps.length)).map
        (fun l => e.lig :: l) := by
  rw [ligatureSubList]
  simp only [h1, h2, h3]

theorem ligatureSubList_nomatch (cov : Coverage) (ligsets : List (List LigEntry))
    (gid : Int) (rest : List Int) (c : Nat) (ligset : List LigEntry)
    (h1 : cov.covidx gid = some c) (h2 : ligsets.get? c = some ligset)
    (h3 : ligset.find? (fun e2 => rest.take e2.comps.length == e2.comps) = none) :
    ligatureSubList cov ligsets (gid :: rest) =
      (ligatureSubList cov ligsets rest).map (fun l => gid :: l) := by
  rw [ligatureSubList]
  simp only [h1, h2, h3]

/-- C2: the ligature scan is greedy left-to-right: at a glyph covered with
index `c`, the first ligature-set entry whose trailing components equal the
immediately following glyphs replaces the covered glyph and the matched
components by the ligature glyph, the scan resuming past the consumed
span; with no matching entry, or at an uncovered glyph, the glyph is kept
and the scan advances by one.  On the fixture (coverage `{10}`, ligature
set `{[20] → 99}`), `[10, 20, 30]` becomes `[99, 30]` and `[10, 21, 30]`
is unchanged. -/
theorem c2_ligature_substitution :
    (∀ (cov : Coverage) (ligsets : List (List LigEntry)) (gid : Int)
        (rest : List Int) (c : Nat) (ligset : List LigEntry) (e : LigEntry),
      cov.covidx gid = some c → ligsets.get? c = some ligset →
      ligset.find? (fun e2 => rest.take e2.comps.length == e2.comps) = some e →
      ligatureSubList cov ligsets (gid :: rest) =
        (ligatureSubList cov ligsets (rest.drop e.comps.length)).map
          (fun l => e.lig :: l)) ∧
    (∀ (cov : Coverage) (ligsets : List (List LigEntry)) (gid : Int)
        (rest : List Int) (c : Nat) (ligset : List LigEntry),
      cov.covidx gid = some c → ligsets.get? c = some ligset →
      ligset.find? (fun e2 => rest.take e2.comps.length == e2.comps) = none →
      ligatureSubList cov ligsets (gid :: rest) =
        (ligatureSubList cov ligsets rest).map (fun l => gid :: l)) ∧
    (∀ (cov : Coverage) (ligsets : List (List LigEntry)) (gid : Int)
        (rest : List Int),
      cov.covidx gid = none →
      ligatureSubList cov ligsets (gid :: rest) =
        (ligatureSubList cov ligsets rest).map (fun l => gid :: l)) ∧
    ligatureSubList (Coverage.fmt1 [10]) [[⟨[20], 99⟩]] [10, 20, 30] =
      some [99, 30] ∧
    ligatureSubList (Coverage.fmt1 [10]) [[⟨[20], 99⟩]] [10, 21, 30] =
      some [10, 21, 30] := by
  refine ⟨ligatureSubList_match, ligatureSubList_nomatch, ligatureSubList_uncovered,
    ?_, ?_⟩
  · rw [ligatureSubList_match (Coverage.fmt1 [10]) [[⟨[20], 99⟩]] 10 [20, 30] 0
      [⟨[20], 99⟩] ⟨[20], 99⟩ rfl rfl rfl]
    norm_num
    rw [ligatureSubList_uncovered (Coverage.fmt1 [10]) [[⟨[20], 99⟩]] 30 [] rfl,
      ligatureSubList_nil]
    rfl
  · rw [ligatureSubList_nomatch (Coverage.fmt1 [10]) [[⟨[20], 99⟩]] 10 [21, 30] 0
      [⟨[20], 99⟩] rfl rfl rfl]
    rw [ligatureSubList_uncovered (Coverage.fmt1 [10]) [[⟨[20], 99⟩]] 21 [30] rfl]
    rw [ligatureSubList_uncovered (Coverage.fmt1 [10]) [[⟨[20], 99⟩]] 30 [] rfl,
      ligatureSubList_nil]
    rfl

/-- Witness for `c2_ligature_substitution` at concrete inputs. -/
theorem c2_ligature_substitution_witness :
    ligatureSubList (Coverage.fmt1 [7]) [[⟨[8], 55⟩]] (7 :: [8]) =
      (ligatureSubList (Coverage.fmt1 [7]) [[⟨[8], 55⟩]] (([8] : List Int).drop 1)).map
        (fun l => 55 :: l) :=
  (c2_ligature_substitution.1) (Coverage.fmt1 [7]) [[⟨[8], 55⟩]] 7 [8] 0
    [⟨[8], 55⟩] ⟨[8], 55⟩ rfl rfl rfl

/-! ## C5: pair adjustment -/

theorem c5_counterexample :
    GposSubtable.adjust
        (.pair1 (Coverage.fmt1 [5])
          [[⟨6, { xadvance := some (-20) }, { xadvance := some 7 }⟩]]) [5, 6] [] =
      some [⟨0, 0, -20⟩, ⟨0, 0, 7⟩] ∧
    ((⟨0, 0, 7⟩ : PositionDelta).dadvance ≠ 0) := by
  constructor
  · rfl
  · decide

/-- C5 (amended): on a pair whose first glyph is covered and whose second
glyph matches a pair-set entry, value1's (dx, dy, dAdvance) goes to the
first glyph and value2's (dx, dy, dAdvance — not dx/dy only) to the second
glyph; a covered-but-unmatched or uncovered fresh pair contributes zero.
On the fixture (pair set on glyph 5 with `(secondGlyph=6,
value1={xAdvance:-20})` under the always-on feature `mark`), positioning
`[5, 6]` gives the first glyph `dAdvance = -20` and positioning `[5, 7]`
gives `dAdvance = 0`. -/
theorem c5_pair_adjustment :
    (∀ (cov : Coverage) (pairsets : List (List PairValue)) (g1 g2 : Int)
        (c : Nat) (pairs : List PairValue) (p : PairValue) (advances : List Int),
      cov.covidx g1 = some c → pairsets.get? c = some pairs →
      pairs.find? (fun q => q.secondglyph = g2) = some p →
      GposSubtable.adjust (.pair1 cov pairsets) [g1, g2] advances =
        some [valuerec_to_delta (some p.value1), valuerec_to_delta (some p.value2)]) ∧
    (∀ (cov : Coverage) (pairsets : List (List PairValue)) (g1 g2 : Int)
        (c : Nat) (pairs : List PairValue) (advances : List Int),
      cov.covidx g1 = some c → pairsets.get? c = some pairs →
      pairs.find? (fun q => q.secondglyph = g2) = none →
      GposSubtable.adjust (.pair1 cov pairsets) [g1, g2] advances =
        some [zeroDelta, zeroDelta]) ∧
    (∀ (cov : Coverage) (pairsets : List (List PairValue)) (g1 g2 : Int)
        (advances : List Int),
      cov.covidx g1 = none →
      GposSubtable.adjust (.pair1 cov pairsets) [g1, g2] advances =
        some [zeroDelta, zeroDelta]) ∧
    (∃ ds, Gpos.positionDeltas gposPairFixture [5, 6] [0, 0] [] = some ds ∧
      (ds.getD 0 zeroDelta).dadvance = -20) ∧
    (∃ ds, Gpos.positionDeltas gposPairFixture [5, 7] [0, 0] [] = some ds ∧
      (ds.getD 0 zeroDelta).dadvance = 0) := by
  refine ⟨?_, ?_, ?_, ?_, ?_⟩
  · intro cov pairsets g1 g2 c pairs p advances h1 h2 h3
    show pairAdjustLoop (.pair1 cov pairsets) cov [(g1, g2)] none none [zeroDelta] =
      some [valuerec_to_delta (some p.value1), valuerec_to_delta (some p.value2)]
    rw [pairAdjustLoop, h1]
    unfold pairValueRecs
    dsimp only
    rw [h2]
    dsimp only
    rw [h3]
    simp [pairAdjustLoop, merge_delta_zero_left]
  · intro cov pairsets g1 g2 c pairs advances h1 h2 h3
    show pairAdjustLoop (.pair1 cov pairsets) cov [(g1, g2)] none none [zeroDelta] =
      some [zeroDelta, zeroDelta]
    rw [pairAdjustLoop, h1]
    unfold pairValueRecs
    dsimp only
    rw [h2]
    dsimp only
    rw [h3]
    simp [pairAdjustLoop, valuerec_to_delta, merge_delta_zero_left, zeroDelta,
      merge_delta]
  · intro cov pairsets g1 g2 advances h1
    show pairAdjustLoop (.pair1 cov pairsets) cov [(g1, g2)] none none [zeroDelta] =
      some [zeroDelta, zeroDelta]
    rw [pairAdjustLoop, h1]
    rfl
  · exact ⟨[⟨0, 0, -20⟩, ⟨0, 0, 0⟩], by decide, by decide⟩
  · exact ⟨[zeroDelta, zeroDelta], by decide, by decide⟩

/-- Witness for `c5_pair_adjustment` at concrete inputs. -/
theorem c5_pair_adjustment_witness :
    GposSubtable.adjust pairFixtureSub [5, 6] [] =
      some [valuerec_to_delta (some { xadvance := some (-20) }),
            valuerec_to_delta (some {})] :=
  c5_pair_adjustment.1 (Coverage.fmt1 [5])
    [[⟨6, { xadvance := some (-20) }, {}⟩]] 5 6 0
    [⟨6, { xadvance := some (-20) }, {}⟩]
    ⟨6, { xadvance := some (-20) }, {}⟩ [] rfl rfl rfl

/-! ## C7: charstring error handling -/

/-- C7 counterexample: a charstring consisting of the reserved operator
byte 2 (hit before any `endchar`) does *not* raise — the scan `break`s (the
raise is commented out in the source) and `charstr2path` still returns a
(here empty) outline, with only the missing-`endchar` warning set. -/
theorem c7_counterexample :
    readcharstrF 16 cffFixture ⟨[], [], [], 0⟩ [2] = .ok ⟨[], [], [], 0⟩ ∧
    charstr2path 16 cffFixture [2] = .ok ([], 0, ⟨0, 0, 0, 0⟩, true) := by
  constructor
  · rfl
  · rfl

/-- C7 (amended): an unknown/reserved operator key terminates the
charstring scan silently with the state built so far (no exception, for
both one-byte keys and two-byte `12 x` keys), while a missing terminal
`endchar` only sets the warning flag of `charstr2path` — whenever scanning
and path building succeed, the outline is returned. -/
theorem c7_unknown_operator_is_silent :
    (∀ (fuel : Nat) (cff : CFF) (st : CSState) (b0 : Nat) (rest : List Nat),
      (b0 ≤ 27 ∨ (29 ≤ b0 ∧ b0 ≤ 31)) → b0 ≠ 12 → toCSOp b0 = none →
      readcharstrF (fuel + 1) cff st (b0 :: rest) = .ok st) ∧
    (∀ (fuel : Nat) (cff : CFF) (st : CSState) (b1 : Nat) (rest : List Nat),
      b1 ≤ 255 → toCSOp (12 * 256 + b1) = none →
      readcharstrF (fuel + 1) cff st (12 :: b1 :: rest) = .ok st) ∧
    (∀ (fuel : Nat) (cff : CFF) (charstr : List Nat) (st : CSState) (s : PathState),
      readcharstrF fuel cff ⟨[], [], [], 0⟩ charstr = .ok st →
      (st.operators.zip st.operands).foldlM (pathStep cff)
          ⟨⟨0, 0⟩, cff.defaultwidth, []⟩ = .ok s →
      charstr2path fuel cff charstr =
        .ok (s.operators, s.width, opsBBox s.operators,
          decide (((st.operators.zip st.operands).getLast?).map Prod.fst ≠
            some CSOp.ENDCHAR))) := by
  refine ⟨?_, ?_, ?_⟩
  · intro fuel cff st b0 rest hrange h12 hnone
    have hb : b0 ≤ 31 := by omega
    interval_cases b0 <;>
      first
        | rfl
        | exact absurd hnone (by decide)
        | omega
  · intro fuel cff st b1 rest hb1 hnone
    interval_cases b1 <;>
      first
        | rfl
        | exact absurd hnone (by decide)
  · intro fuel cff charstr st s h1 h2
    unfold charstr2path
    rw [h1]
    simp only [bind, Except.bind]
    rw [h2]

/-- Witness for `c7_unknown_operator_is_silent` at concrete inputs. -/
theorem c7_unknown_operator_is_silent_witness :
    readcharstrF 4 cffFixture ⟨[], [], [], 0⟩ (9 :: [14]) = .ok ⟨[], [], [], 0⟩ ∧
    readcharstrF 4 cffFixture ⟨[], [], [], 0⟩ (12 :: 13 :: [14]) =
      .ok ⟨[], [], [], 0⟩ := by
  have h := c7_unknown_operator_is_silent
  exact ⟨h.1 3 cffFixture ⟨[], [], [], 0⟩ 9 [14] (by norm_num) (by norm_num) rfl,
         h.2.1 3 cffFixture ⟨[], [], [], 0⟩ 13 [14] (by norm_num) rfl⟩

/-! ## C1: format-4 cmap -/

theorem reverse_find?_of_filter_single {α : Type} (p : α → Bool) (l : List α)
    (e : α) (h : l.filter p = [e]) : l.reverse.find? p = some e := by
  rw [find?_eq_head?_filter, List.filter_reverse, h]
  rfl

theorem reverse_find?_of_filter_nil {α : Type} (p : α → Bool) (l : List α)
    (h : l.filter p = []) : l.reverse.find? p = none := by
  rw [find?_eq_head?_filter, List.filter_reverse, h]
  rfl

/-- Filtering one segment's dict writes for key `c` yields either the
single entry at `c` (if `c` lies in the segment's code range) or nothing. -/
theorem filter_range'_map (g : Nat → Option Nat) (c : Nat) :
    ∀ (k s : Nat),
      ((List.range' s k).map (fun i => (i, g i))).filter
          (fun e => e.1 = c) =
        if s ≤ c ∧ c < s + k then [(c, g c)] else [] := by
  intro k
  induction k with
  | zero =>
      intro s
      rw [if_neg (by omega)]
      rfl
  | succ k ih =>
      intro s
      rw [List.range'_succ, List.map_cons, List.filter_cons]
      by_cases hc : s = c
      · subst hc
        simp only [decide_eq_true_eq]
        rw [if_pos trivial]
        rw [ih (s + 1), if_neg (by omega), if_pos (by omega)]
      · simp only [decide_eq_true_eq]
        rw [if_neg (by exact hc)]
        rw [ih (s + 1)]
        by_cases hin : s + 1 ≤ c ∧ c < s + 1 + k
        · rw [if_pos hin, if_pos (by omega)]
        · rw [if_neg hin, if_neg (by omega)]

theorem rawEntries_eq_flatMap (cm : Cmap4) :
    cm.rawEntries = (List.range cm.startcodes.length).flatMap cm.segBlock := rfl

/-- A character in exactly one segment filters to exactly its own entry. -/
theorem filter_rawEntries_single (cm : Cmap4) (s c : Nat)
    (hs : s < cm.startcodes.length)
    (hin : cm.startcodes.getD s 0 ≤ c ∧ c ≤ cm.endcodes.getD s 0)
    (huniq : ∀ t, t < cm.startcodes.length → t ≠ s →
      ¬(cm.startcodes.getD t 0 ≤ c ∧ c ≤ cm.endcodes.getD t 0)) :
    cm.rawEntries.filter (fun e => e.1 = c) = [(c, cm.seggid s c)] := by
  rw [rawEntries_eq_flatMap]
  have hblock : ∀ t, t < cm.startcodes.length →
      (cm.segBlock t).filter (fun e => e.1 = c) =
        if t = s then [(c, cm.seggid t c)] else [] := by
    intro t ht
    unfold Cmap4.segBlock
    rw [filter_range'_map]
    by_cases hts : t = s
    · subst hts
      rw [if_pos (by omega), if_pos rfl]
    · rw [if_neg (by have := huniq t ht hts; omega), if_neg hts]
  have main : ∀ (L : List Nat), L.Nodup → (∀ t ∈ L, t < cm.startcodes.length) →
      (L.flatMap cm.segBlock).filter (fun e => e.1 = c) =
        if s ∈ L then [(c, cm.seggid s c)] else [] := by
    intro L
    induction L with
    | nil => intro _ _; rw [if_neg (by simp)]; rfl
    | cons t L ih =>
        intro hnd hmem
        rw [List.flatMap_cons, List.filter_append,
          hblock t (hmem t (by simp)),
          ih (List.Nodup.of_cons hnd) (fun u hu => hmem u (by simp [hu]))]
        by_cases hts : t = s
        · subst hts
          rw [if_pos rfl, if_neg (by
              intro hcon
              exact (List.nodup_cons.mp hnd).1 hcon),
            if_pos (by simp)]
          rfl
        · rw [if_neg hts]
          by_cases hsL : s ∈ L
          · rw [if_pos hsL, if_pos (by simp [hsL])]
            rfl
          · rw [if_neg hsL, if_neg (by simp [Ne.symm hts, hsL])]
            rfl
  rw [main (List.range cm.startcodes.length) (List.nodup_range _)
      (fun t ht => List.mem_range.mp ht),
    if_pos (List.mem_range.mpr hs)]

/-- A character outside all segments filters to nothing. -/
theorem filter_rawEntries_nil (cm : Cmap4) (c : Nat)
    (hout : ∀ t, t < cm.startcodes.length →
      ¬(cm.startcodes.getD t 0 ≤ c ∧ c ≤ cm.endcodes.getD t 0)) :
    cm.rawEntries.filter (fun e => e.1 = c) = [] := by
  rw [rawEntries_eq_flatMap]
  have main : ∀ (L : List Nat), (∀ t ∈ L, t < cm.startcodes.length) →
      (L.flatMap cm.segBlock).filter (fun e => e.1 = c) = [] := by
    intro L
    induction L with
    | nil => intro _; rfl
    | cons t L ih =>
        intro hmem
        rw [List.flatMap_cons, List.filter_append,
          ih (fun u hu => hmem u (by simp [hu]))]
        have : (cm.segBlock t).filter (fun e => e.1 = c) = [] := by
          unfold Cmap4.segBlock
          rw [filter_range'_map,
            if_neg (by have := hout t (hmem t (by simp)); omega)]
        rw [this]
        rfl
  exact main _ (fun t ht => List.mem_range.mp ht)

/-- C1: for a constructible format-4 cmap, a character `c` lying in exactly
one segment `s` with `idRangeOffset[s] == 0` maps to
`(idDelta[s] + c) mod 65536`; a character outside all segments maps to 0;
on the fixture segment `(start=65, end=90, idDelta=3, idRangeOffset=0)`,
`glyphid('A') = 68`. -/
theorem c1_cmap4_glyphid (cm : Cmap4) (hok : cm.buildOk)
    (hlen1 : cm.endcodes.length = cm.startcodes.length)
    (hlen2 : cm.idrangeoffset.length = cm.startcodes.length) :
    (∀ s c : Nat, s < cm.startcodes.length →
      cm.startcodes.getD s 0 ≤ c → c ≤ cm.endcodes.getD s 0 →
      cm.idrangeoffset.getD s 0 = 0 →
      (∀ t, t < cm.startcodes.length → t ≠ s →
        ¬(cm.startcodes.getD t 0 ≤ c ∧ c ≤ cm.endcodes.getD t 0)) →
      cm.glyphid c = (cm.iddeltas.getD s 0 + c) % 65536) ∧
    (∀ c : Nat, (∀ t, t < cm.startcodes.length →
        ¬(cm.startcodes.getD t 0 ≤ c ∧ c ≤ cm.endcodes.getD t 0)) →
      cm.glyphid c = 0) ∧
    cmapFixtureA.glyphid 65 = 68 := by
  refine ⟨?_, ?_, by decide⟩
  · intro s c hs hc1 hc2 hofs huniq
    unfold Cmap4.glyphid
    rw [reverse_find?_of_filter_single _ _ _
      (filter_rawEntries_single cm s c hs ⟨hc1, hc2⟩ huniq)]
    unfold Cmap4.seggid
    rw [if_neg (by rw [hofs]; exact fun hcon => hcon rfl)]
    rfl
  · intro c hout
    unfold Cmap4.glyphid
    rw [reverse_find?_of_filter_nil _ _ (filter_rawEntries_nil cm c hout)]
    rfl

/-- Witness for `c1_cmap4_glyphid` on the fixture cmap. -/
theorem c1_cmap4_glyphid_witness :
    cmapFixtureA.glyphid 65 = (3 + 65) % 65536 ∧ cmapFixtureA.glyphid 100 = 0 := by
  have h := c1_cmap4_glyphid cmapFixtureA (by decide) (by decide) (by decide)
  refine ⟨h.1 0 65 (by decide) (by decide) (by decide) (by decide) ?_,
    h.2.1 100 ?_⟩
  · intro t ht hts
    have h1 : t < 1 := by simpa [cmapFixtureA] using ht
    omega
  · intro t ht
    have h1 : t < 1 := by simpa [cmapFixtureA] using ht
    have h0 : t = 0 := by omega
    subst h0
    decide

/-! ## C9: one positioning delta per glyph -/

theorem mapM_some_length {α β : Type} (f : α → Option β) :
    ∀ (l : List α) (res : List β), l.mapM f = some res → res.length = l.length := by
  intro l
  induction l with
  | nil => intro res h; cases h; rfl
  | cons a t ih =>
      intro res h
      rw [List.mapM_cons] at h
      cases hfa : f a with
      | none => rw [hfa] at h; cases h
      | some b =>
          rw [hfa] at h
          cases hmt : t.mapM f with
          | none => rw [hmt] at h; cases h
          | some bs =>
              rw [hmt] at h
              cases h
              simp [ih bs hmt]

theorem merge_deltas_length (d1 d2 : List PositionDelta) :
    (merge_deltas d1 d2).length = min d1.length d2.length :=
  List.length_zipWith _ _ _

theorem merge_deltas_getD (d1 d2 : List PositionDelta) (i : Nat)
    (h1 : i < d1.length) (h2 : i < d2.length) :
    (merge_deltas d1 d2).getD i zeroDelta =
      merge_delta (d1.getD i zeroDelta) (d2.getD i zeroDelta) := by
  have hlt : i < (merge_deltas d1 d2).length := by
    rw [merge_deltas_length]; omega
  rw [List.getD_eq_getElem _ _ hlt, List.getD_eq_getElem _ _ h1,
    List.getD_eq_getElem _ _ h2]
  exact List.getElem_zipWith

theorem map_const_getD {α : Type} (l : List α) (i : Nat) :
    (l.map (fun _ => zeroDelta)).getD i zeroDelta = zeroDelta := by
  by_cases h : i < l.length
  · rw [List.getD_eq_getElem _ _ (by simpa using h)]
    simp
  · rw [List.getD_eq_default]
    simpa using h

theorem pairAdjustLoop_length (sub : GposSubtable) (cov : Coverage) :
    ∀ (pairs : List (Int × Int)) (v1 v2 : Option ValueRecord)
      (hd : PositionDelta) (tl res : List PositionDelta),
      pairAdjustLoop sub cov pairs v1 v2 (hd :: tl) = some res →
      res.length = tl.length + 1 + pairs.length := by
  intro pairs
  induction pairs with
  | nil =>
      intro v1 v2 hd tl res h
      cases h
      simp
  | cons pr rest ih =>
      intro v1 v2 hd tl res h
      rw [pairAdjustLoop] at h
      cases hcov : cov.covidx pr.1 with
      | none =>
          rw [hcov] at h
          have := ih v1 v2 zeroDelta (hd :: tl) res h
          simp at this ⊢
          omega
      | some c =>
          rw [hcov] at h
          dsimp only at h
          cases hvr : pairValueRecs sub c pr.1 pr.2 v1 v2 with
          | none => rw [hvr] at h; cases h
          | some q =>
              rw [hvr] at h
              have := ih q.1 q.2 (valuerec_to_delta q.2)
                (merge_delta ((hd :: tl).headD zeroDelta) (valuerec_to_delta q.1)
                  :: (hd :: tl).tail) res h
              simp at this ⊢
              omega

theorem markAdjustLoop_length
    (la : Int → Int → Option (Option (Anchor × Anchor))) (advances : List Int) :
    ∀ (pairs : List (Int × Int)) (i : Nat) (accRev res : List PositionDelta),
      markAdjustLoop la advances i pairs accRev = some res →
      res.length = accRev.length + pairs.length := by
  intro pairs
  induction pairs with
  | nil =>
      intro i accRev res h
      cases h
      simp
  | cons pr rest ih =>
      intro i accRev res h
      rw [markAdjustLoop] at h
      cases hla : la pr.1 pr.2 with
      | none => rw [hla] at h; cases h
      | some o =>
          rw [hla] at h
          cases o with
          | none =>
              have := ih (i + 1) (zeroDelta :: accRev) res h
              simp at this ⊢
              omega
          | some anchors =>
              cases hadv : advances.get? i with
              | none => rw [hadv] at h; cases h
              | some adv =>
                  rw [hadv] at h
                  have := ih (i + 1) (_ :: accRev) res h
                  simp at this ⊢
                  omega

theorem zip_drop_one_length {α : Type} (g : α) (gs : List α) :
    ((g :: gs).zip ((g :: gs).drop 1)).length = gs.length := by
  simp [List.length_zip]

theorem adjust_some_length (sub : GposSubtable) (gids advances : List Int)
    (d : List PositionDelta) (hne : gids ≠ [])
    (h : sub.adjust gids advances = some d) : d.length = gids.length := by
  obtain ⟨g, gs, rfl⟩ : ∃ g gs, gids = g :: gs := by
    cases gids with
    | nil => exact absurd rfl hne
    | cons g gs => exact ⟨g, gs, rfl⟩
  cases sub with
  | single1 cov vr =>
      cases h
      simp
  | single2 cov vrs =>
      have := mapM_some_length _ _ _ h
      simpa using this
  | pair1 cov ps =>
      have := pairAdjustLoop_length _ cov _ none none zeroDelta [] d h
      rw [zip_drop_one_length] at this
      simp at this ⊢
      omega
  | pair2 cov c1 c2 crs =>
      have := pairAdjustLoop_length _ cov _ none none zeroDelta [] d h
      rw [zip_drop_one_length] at this
      simp at this ⊢
      omega
  | mark2base mc bc ma ba =>
      have := markAdjustLoop_length _ advances _ 0 [zeroDelta] d h
      rw [zip_drop_one_length] at this
      simp at this ⊢
      omega
  | mark2mark m1 m2 ma1 ma2 =>
      have := markAdjustLoop_length _ advances _ 0 [zeroDelta] d h
      rw [zip_drop_one_length] at this
      simp at this ⊢
      omega

theorem lookup_adjust_aux (gids advances : List Int) :
    ∀ (subs : List GposSubtable) (init d : List PositionDelta),
      init.length = gids.length →
      subs.foldlM
        (fun deltas sub => (sub.adjust gids advances).map (merge_deltas deltas))
        init = some d →
      d.length = gids.length := by
  intro subs
  induction subs with
  | nil =>
      intro init d hi h
      cases h
      exact hi
  | cons sub rest ih =>
      intro init d hi h
      rw [List.foldlM_cons] at h
      cases ha : sub.adjust gids advances with
      | none => rw [ha] at h; cases h
      | some dd =>
          rw [ha] at h
          simp only [Option.map_some', Option.some_bind] at h
          refine ih _ d ?_ h
          rw [merge_deltas_length, hi]
          cases gids with
          | nil => simp
          | cons g gs =>
              rw [adjust_some_length sub _ advances dd (by simp) ha]
              simp

theorem lookup_adjust_length (lk : GposLookup) (gids advances : List Int)
    (d : List PositionDelta) (h : lk.adjust gids advances = some d) :
    d.length = gids.length :=
  lookup_adjust_aux gids advances lk.subtables _ d (by simp) h

theorem gposFoldLk_sum (gids advances : List Int) :
    ∀ (lks : List GposLookup) (init ds : List PositionDelta),
      init.length = gids.length →
      gposFoldLk gids advances lks init = some ds →
      ∃ outs, lks.mapM (fun lk => lk.adjust gids advances) = some outs ∧
        ds.length = gids.length ∧
        ∀ i, i < gids.length →
          ds.getD i zeroDelta =
            outs.foldl (fun acc out => merge_delta acc (out.getD i zeroDelta))
              (init.getD i zeroDelta) := by
  intro lks
  induction lks with
  | nil =>
      intro init ds hi h
      cases h
      exact ⟨[], rfl, hi, fun i _ => rfl⟩
  | cons lk rest ih =>
      intro init ds hi h
      unfold gposFoldLk at h
      rw [List.foldlM_cons] at h
      cases ha : lk.adjust gids advances with
      | none => rw [ha] at h; cases h
      | some dd =>
          rw [ha] at h
          simp only [Option.map_some', Option.some_bind] at h
          have hlen : (merge_deltas init dd).length = gids.length := by
            rw [merge_deltas_length, hi]
            cases gids with
            | nil => simp
            | cons g gs =>
                rw [lookup_adjust_length lk _ advances dd ha]
                simp
          obtain ⟨outs, hmap, hdlen, hsum⟩ := ih (merge_deltas init dd) ds hlen h
          refine ⟨dd :: outs, ?_, hdlen, ?_⟩
          · rw [List.mapM_cons, ha, hmap]
            rfl
          · intro i hilt
            rw [hsum i hilt, List.foldl_cons]
            have hddlen : dd.length = gids.length :=
              lookup_adjust_length lk _ advances dd ha
            have : (merge_deltas init dd).getD i zeroDelta =
                merge_delta (init.getD i zeroDelta) (dd.getD i zeroDelta) :=
              merge_deltas_getD init dd i (by omega) (by omega)
            rw [this]

theorem positionDeltas_eq_foldLk (gpos : Gpos) (gids advances : List Int)
    (features : List (String × Bool)) :
    gpos.positionDeltas gids advances features =
      gposFoldLk gids advances (gpos.activeLookups features)
        (gids.map (fun _ => zeroDelta)) := by
  unfold Gpos.positionDeltas Gpos.activeLookups
  generalize gpos.feattable = entries
  generalize (gids.map (fun _ => zeroDelta)) = init
  induction entries generalizing init with
  | nil => rfl
  | cons e rest ih =>
      rw [List.foldlM_cons, List.filter_cons]
      by_cases hg : (e.1 ∈ gposPermFeatures || assocGetD features e.1 false) = true
      · rw [if_pos hg, hg]
        simp only [if_true]
        rw [List.flatMap_cons]
        unfold gposFoldLk
        rw [List.foldlM_append]
        cases hfold : e.2.foldlM
            (fun d table => (table.adjust gids advances).map (merge_deltas d)) init with
        | none => rfl
        | some mid => exact ih mid
      · rw [Bool.not_eq_true] at hg
        rw [if_neg (by simp [hg]), hg]
        simp only [Bool.false_eq_true, if_false]
        exact ih init

theorem positionXY_length :
    ∀ (l : List (PositionDelta × Int)) (x : Int), (positionXY l x).length = l.length := by
  intro l
  induction l with
  | nil => intro x; rfl
  | cons d rest ih =>
      intro x
      rw [positionXY]
      simp [ih]

/-- C9: for every glyph run and feature set, `Gpos.position` returns
exactly one (x, y) entry per input glyph, and the underlying delta list has
one entry per glyph, each entry being the `merge_delta`-sum of the deltas
contributed by the active lookups at that position. -/
theorem c9_position_one_delta_per_glyph (gpos : Gpos)
    (glyphs : List (Int × Int)) (features : List (String × Bool)) :
    (∀ xy, gpos.position glyphs features = some xy → xy.length = glyphs.length) ∧
    (∀ ds, gpos.positionDeltas (glyphs.map (fun g => g.1))
        (glyphs.map (fun g => g.2)) features = some ds →
      ds.length = glyphs.length ∧
      ∃ outs, (gpos.activeLookups features).mapM
          (fun lk => lk.adjust (glyphs.map (fun g => g.1))
            (glyphs.map (fun g => g.2))) = some outs ∧
        ∀ i, i < glyphs.length →
          ds.getD i zeroDelta =
            outs.foldl (fun acc out => merge_delta acc (out.getD i zeroDelta))
              zeroDelta) := by
  have hdeltas : ∀ ds, gpos.positionDeltas (glyphs.map (fun g => g.1))
      (glyphs.map (fun g => g.2)) features = some ds →
      ds.length = glyphs.length ∧
      ∃ outs, (gpos.activeLookups features).mapM
          (fun lk => lk.adjust (glyphs.map (fun g => g.1))
            (glyphs.map (fun g => g.2))) = some outs ∧
        ∀ i, i < glyphs.length →
          ds.getD i zeroDelta =
            outs.foldl (fun acc out => merge_delta acc (out.getD i zeroDelta))
              zeroDelta := by
    intro ds h
    rw [positionDeltas_eq_foldLk] at h
    obtain ⟨outs, hmap, hlen, hsum⟩ :=
      gposFoldLk_sum (glyphs.map (fun g => g.1)) (glyphs.map (fun g => g.2))
        (gpos.activeLookups features) _ ds (by simp) h
    refine ⟨by simpa using hlen, outs, hmap, ?_⟩
    intro i hilt
    have := hsum i (by simpa using hilt)
    rw [map_const_getD] at this
    exact this
  refine ⟨?_, hdeltas⟩
  · intro xy h
    unfold Gpos.position at h
    dsimp only at h
    cases hd : gpos.positionDeltas (glyphs.map (fun g => g.1))
        (glyphs.map (fun g => g.2)) features with
    | none => rw [hd] at h; cases h
    | some ds =>
        rw [hd] at h
        simp only [Option.map_some', Option.some.injEq] at h
        subst h
        rw [positionXY_length, List.length_zip]
        have := (hdeltas ds hd).1
        simp [this]

/-- Witness for `c9_position_one_delta_per_glyph` on the pair fixture. -/
theorem c9_position_one_delta_per_glyph_witness :
    ∀ xy, Gpos.position gposPairFixture [(5, 100), (6, 100)] [] = some xy →
      xy.length = 2 := by
  have h := c9_position_one_delta_per_glyph gposPairFixture [(5, 100), (6, 100)] []
  intro xy hxy
  exact h.1 xy hxy

/-! ## C10: the GSUB engine never mutates the caller's list -/

theorem heapWrite_length (h : Heap) (r : Nat) (v : List Int) :
    (heapWrite h r v).length = h.length := by
  simp [heapWrite]

theorem heapRead_write_ne (h : Heap) (r : Nat) (v : List Int) (q : Nat)
    (hq : q ≠ r) : heapRead (heapWrite h r v) q = heapRead h q := by
  unfold heapRead heapWrite
  rw [List.getD_eq_getElem?_getD, List.getD_eq_getElem?_getD,
    List.getElem?_set_ne (Ne.symm hq)]

theorem heapRead_append_lt (h : Heap) (v : List Int) (q : Nat)
    (hq : q < h.length) : heapRead (h ++ [v]) q = heapRead h q := by
  unfold heapRead
  rw [List.getD_eq_getElem?_getD, List.getD_eq_getElem?_getD,
    List.getElem?_append, if_pos hq]

theorem frameH_refl (h : Heap) (r : Nat) : FrameH h r h :=
  ⟨le_refl _, fun _ _ _ => rfl⟩

theorem frameH_trans {h : Heap} {r : Nat} {h2 h3 : Heap}
    (f1 : FrameH h r h2) (f2 : FrameH h2 r h3) : FrameH h r h3 := by
  refine ⟨le_trans f1.1 f2.1, fun q hq hqr => ?_⟩
  rw [f2.2 q (lt_of_lt_of_le hq f1.1) hqr, f1.2 q hq hqr]

theorem frameH_write (h : Heap) (r : Nat) (v : List Int) :
    FrameH h r (heapWrite h r v) := by
  refine ⟨by rw [heapWrite_length], fun q _ hqr => heapRead_write_ne h r v q hqr⟩

theorem frameH_alloc (h : Heap) (r : Nat) (v : List Int) :
    FrameH h r (h ++ [v]) := by
  refine ⟨by simp, fun q hq _ => heapRead_append_lt h v q hq⟩

theorem frameL_frameH {h : Heap} {out : Heap × Nat} (r : Nat)
    (fL : FrameL h out) : FrameH h r out.1 :=
  ⟨fL.1, fun q hq _ => fL.2.1 q hq⟩

/-- The frame property of the whole substitution heap semantics, by
induction on fuel: every run writes only to its argument cell and to
freshly allocated cells, and a lookup run (which copies its input first)
preserves every pre-existing cell and returns a fresh reference. -/
theorem gsubFrame : ∀ fuel : Nat,
    (∀ sub lookups name pick h r out,
      subRun fuel sub lookups name pick h r = some out → FrameS h r out) ∧
    (∀ covtable rules lookups pick h r i h2,
      chain1Loop fuel covtable rules lookups pick h r i = some h2 → FrameH h r h2) ∧
    (∀ ruleset lookups pick h r i out,
      chain1Rules fuel ruleset lookups pick h r i = some out → FrameH h r out.1) ∧
    (∀ seqlookups inputlen lookups pick h r i h2,
      seqFold fuel seqlookups inputlen lookups pick h r i = some h2 → FrameH h r h2) ∧
    (∀ covtable bc ic lc rules lookups pick h r i h2,
      chain2Loop fuel covtable bc ic lc rules lookups pick h r i = some h2 →
        FrameH h r h2) ∧
    (∀ bc ic lc ruleset lookups pick h r i h2,
      chain2Rules fuel bc ic lc ruleset lookups pick h r i = some h2 → FrameH h r h2) ∧
    (∀ bcov icov lcov sls lookups pick h r i h2,
      chain3Loop fuel bcov icov lcov sls lookups pick h r i = some h2 → FrameH h r h2) ∧
    (∀ lk lookups name pick h r out,
      lookupRun fuel lk lookups name pick h r = some out → FrameL h out) ∧
    (∀ subs lookups name pick h r out,
      subtablesFold fuel subs lookups name pick h r = some out → FrameS h r out) := by
  intro fuel
  induction fuel with
  | zero =>
      refine ⟨?_, ?_, ?_, ?_, ?_, ?_, ?_, ?_, ?_⟩ <;>
        · intros
          exact Option.noConfusion (by assumption)
  | succ fuel ih =>
      obtain ⟨ihSub, ihC1L, ihC1R, ihSeq, ihC2L, ihC2R, ihC3L, ihLk, ihFold⟩ := ih
      refine ⟨?_, ?_, ?_, ?_, ?_, ?_, ?_, ?_, ?_⟩
      -- subRun
      · intro sub lookups name pick h r out hrun
        cases sub with
        | unimplemented =>
            have e : some (h, r) = some out := hrun
            cases e
            exact ⟨frameH_refl h r, Or.inl rfl⟩
        | single1 covtable deltagid =>
            have e : some (heapWrite h r (singleSub1List covtable deltagid
                (heapRead h r)), r) = some out := hrun
            cases e
            exact ⟨frameH_write h r _, Or.inl rfl⟩
        | single2 covtable subglyphids =>
            have e : (singleSub2List covtable subglyphids (heapRead h r)).map
                (fun l => (heapWrite h r l, r)) = some out := hrun
            cases hs : singleSub2List covtable subglyphids (heapRead h r) with
            | none => rw [hs] at e; cases e
            | some l =>
                rw [hs] at e
                cases e
                exact ⟨frameH_write h r _, Or.inl rfl⟩
        | alternate covtable altglyphs =>
            have e : (alternateSubList covtable altglyphs name pick (heapRead h r)).map
                (fun l => (heapWrite h r l, r)) = some out := hrun
            cases hs : alternateSubList covtable altglyphs name pick (heapRead h r) with
            | none => rw [hs] at e; cases e
            | some l =>
                rw [hs] at e
                cases e
                exact ⟨frameH_write h r _, Or.inl rfl⟩
        | multiple covtable subglyphids =>
            have e : (multipleSubList covtable subglyphids (heapRead h r)).map
                (fun l => heapAlloc h l) = some out := hrun
            cases hs : multipleSubList covtable subglyphids (heapRead h r) with
            | none => rw [hs] at e; cases e
            | some l =>
                rw [hs] at e
                cases e
                exact ⟨frameH_alloc h r l, Or.inr (le_refl _)⟩
        | ligature covtable ligsets =>
            have e : (ligatureSubList covtable ligsets (heapRead h r)).map
                (fun l => heapAlloc h l) = some out := hrun
            cases hs : ligatureSubList covtable ligsets (heapRead h r) with
            | none => rw [hs] at e; cases e
            | some l =>
                rw [hs] at e
                cases e
                exact ⟨frameH_alloc h r l, Or.inr (le_refl _)⟩
        | chained1 covtable rules =>
            have e : (chain1Loop fuel covtable rules lookups pick h r 0).map
                (fun h2 => (h2, r)) = some out := hrun
            cases hc : chain1Loop fuel covtable rules lookups pick h r 0 with
            | none => rw [hc] at e; cases e
            | some h2 =>
                rw [hc] at e
                cases e
                exact ⟨ihC1L covtable rules lookups pick h r 0 h2 hc, Or.inl rfl⟩
        | chained2 covtable bc ic lc rules =>
            have e : (chain2Loop fuel covtable bc ic lc rules lookups pick h r 0).map
                (fun h2 => (h2, r)) = some out := hrun
            cases hc : chain2Loop fuel covtable bc ic lc rules lookups pick h r 0 with
            | none => rw [hc] at e; cases e
            | some h2 =>
                rw [hc] at e
                cases e
                exact ⟨ihC2L covtable bc ic lc rules lookups pick h r 0 h2 hc,
                  Or.inl rfl⟩
        | chained3 bcov icov lcov sls =>
            have e : (chain3Loop fuel bcov icov lcov sls lookups pick h r
                bcov.length).map (fun h2 => (h2, r)) = some out := hrun
            cases hc : chain3Loop fuel bcov icov lcov sls lookups pick h r
                bcov.length with
            | none => rw [hc] at e; cases e
            | some h2 =>
                rw [hc] at e
                cases e
                exact ⟨ihC3L bcov icov lcov sls lookups pick h r bcov.length h2 hc,
                  Or.inl rfl⟩
      -- chain1Loop
      · intro covtable rules lookups pick h r i h2 hrun
        have e : (if i < (heapRead h r).length then
            match covtable.covidx ((heapRead h r).getD i 0) with
            | none => chain1Loop fuel covtable rules lookups pick h r (i + 1)
            | some c =>
                match rules.get? c with
                | none => none
                | some ruleset =>
                    match chain1Rules fuel ruleset lookups pick h r i with
                    | none => none
                    | some (h3, i3) => chain1Loop fuel covtable rules lookups pick h3 r i3
          else some h) = some h2 := hrun
        by_cases hlt : i < (heapRead h r).length
        · rw [if_pos hlt] at e
          cases hcov : covtable.covidx ((heapRead h r).getD i 0) with
          | none =>
              rw [hcov] at e
              exact ihC1L covtable rules lookups pick h r (i + 1) h2 e
          | some c =>
              rw [hcov] at e
              dsimp only at e
              cases hrg : rules.get? c with
              | none => rw [hrg] at e; cases e
              | some ruleset =>
                  rw [hrg] at e
                  dsimp only at e
                  cases hcr : chain1Rules fuel ruleset lookups pick h r i with
                  | none => rw [hcr] at e; cases e
                  | some p =>
                      obtain ⟨ph, pi⟩ := p
                      rw [hcr] at e
                      exact frameH_trans
                        (ihC1R ruleset lookups pick h r i (ph, pi) hcr)
                        (ihC1L covtable rules lookups pick ph r pi h2 e)
        · rw [if_neg hlt] at e
          cases e
          exact frameH_refl h r
      -- chain1Rules
      · intro ruleset lookups pick h r i out hrun
        cases ruleset with
        | nil =>
            have e : some (h, i) = some out := hrun
            cases e
            exact frameH_refl h r
        | cons rule rs =>
            have e : (if pySlice (heapRead h r) ((i : Int) + 1)
                  ((i : Int) + 1 + rule.input.length) ≠ rule.input then
                chain1Rules fuel rs lookups pick h r (i + 1)
              else if (pySlice (heapRead h r) ((i : Int) - rule.backtrack.length)
                  (i : Int)).reverse ≠ rule.backtrack then
                chain1Rules fuel rs lookups pick h r (i + 1)
              else if pySlice (heapRead h r) ((i : Int) + 1 + rule.input.length)
                  ((i : Int) + 1 +
                    ((rule.input.length + rule.lookahead.length : Nat) : Int)) ≠
                    rule.lookahead then
                chain1Rules fuel rs lookups pick h r (i + 1)
              else
                match seqFold fuel rule.sequence rule.input.length lookups pick h r i with
                | none => none
                | some h3 =>
                    chain1Rules fuel rs lookups pick h3 r (i + rule.input.length)) =
              some out := hrun
            by_cases c1 : pySlice (heapRead h r) ((i : Int) + 1)
                ((i : Int) + 1 + rule.input.length) ≠ rule.input
            · rw [if_pos c1] at e
              exact ihC1R rs lookups pick h r (i + 1) out e
            · rw [if_neg c1] at e
              by_cases c2 : (pySlice (heapRead h r) ((i : Int) - rule.backtrack.length)
                  (i : Int)).reverse ≠ rule.backtrack
              · rw [if_pos c2] at e
                exact ihC1R rs lookups pick h r (i + 1) out e
              · rw [if_neg c2] at e
                by_cases c3 : pySlice (heapRead h r) ((i : Int) + 1 + rule.input.length)
                    ((i : Int) + 1 +
                      ((rule.input.length + rule.lookahead.length : Nat) : Int)) ≠
                      rule.lookahead
                · rw [if_pos c3] at e
                  exact ihC1R rs lookups pick h r (i + 1) out e
                · rw [if_neg c3] at e
                  cases hsf : seqFold fuel rule.sequence rule.input.length
                      lookups pick h r i with
                  | none => rw [hsf] at e; cases e
                  | some h3 =>
                      rw [hsf] at e
                      exact frameH_trans
                        (ihSeq rule.sequence rule.input.length lookups pick h r i h3 hsf)
                        (ihC1R rs lookups pick h3 r (i + rule.input.length) out e)
      -- seqFold
      · intro seqlookups inputlen lookups pick h r i h2 hrun
        cases seqlookups with
        | nil =>
            have e : some h = some h2 := hrun
            cases e
            exact frameH_refl h r
        | cons sl rest =>
            have e : (match lookups.get? sl.lookupindex with
              | none => none
              | some lk =>
                  match lookupRun fuel lk lookups none pick
                      (h ++ [pySlice (heapRead h r) (i : Int) ((i : Int) + 1 + inputlen)])
                      h.length with
                  | none => none
                  | some (h3, rres) =>
                      seqFold fuel rest inputlen lookups pick
                        (heapWrite h3 r
                          (pySpliceAssign (heapRead h3 r) ((i : Int) + sl.sequenceindex)
                            ((i : Int) + 1 + inputlen) (heapRead h3 rres))) r i) =
              some h2 := hrun
            cases hlk : lookups.get? sl.lookupindex with
            | none => rw [hlk] at e; cases e
            | some lk =>
                rw [hlk] at e
                dsimp only at e
                cases hlr : lookupRun fuel lk lookups none pick
                    (h ++ [pySlice (heapRead h r) (i : Int) ((i : Int) + 1 + inputlen)])
                    h.length with
                | none => rw [hlr] at e; cases e
                | some p =>
                    obtain ⟨h3, rres⟩ := p
                    rw [hlr] at e
                    have fL := ihLk lk lookups none pick _ h.length (h3, rres) hlr
                    refine frameH_trans (frameH_alloc h r _)
                      (frameH_trans (frameL_frameH r fL)
                        (frameH_trans (frameH_write h3 r _)
                          (ihSeq rest inputlen lookups pick _ r i h2 e)))
      -- chain2Loop
      · intro covtable bc ic lc rules lookups pick h r i h2 hrun
        have e : (if i < (heapRead h r).length then
            match covtable.covidx ((heapRead h r).getD i 0) with
            | none => chain2Loop fuel covtable bc ic lc rules lookups pick h r (i + 1)
            | some _ =>
                match rules.get? (ic.get_class ((heapRead h r).getD i 0)) with
                | none => none
                | some ruleset =>
                    match chain2Rules fuel bc ic lc ruleset lookups pick h r i with
                    | none => none
                    | some h3 =>
                        chain2Loop fuel covtable bc ic lc rules lookups pick h3 r (i + 1)
          else some h) = some h2 := hrun
        by_cases hlt : i < (heapRead h r).length
        · rw [if_pos hlt] at e
          cases hcov : covtable.covidx ((heapRead h r).getD i 0) with
          | none =>
              rw [hcov] at e
              exact ihC2L covtable bc ic lc rules lookups pick h r (i + 1) h2 e
          | some c =>
              rw [hcov] at e
              dsimp only at e
              cases hrg : rules.get? (ic.get_class ((heapRead h r).getD i 0)) with
              | none => rw [hrg] at e; cases e
              | some ruleset =>
                  rw [hrg] at e
                  dsimp only at e
                  cases hcr : chain2Rules fuel bc ic lc ruleset lookups pick h r i with
                  | none => rw [hcr] at e; cases e
                  | some h3 =>
                      rw [hcr] at e
                      exact frameH_trans
                        (ihC2R bc ic lc ruleset lookups pick h r i h3 hcr)
                        (ihC2L covtable bc ic lc rules lookups pick h3 r (i + 1) h2 e)
        · rw [if_neg hlt] at e
          cases e
          exact frameH_refl h r
      -- chain2Rules
      · intro bc ic lc ruleset lookups pick h r i h2 hrun
        cases ruleset with
        | nil =>
            have e : some h = some h2 := hrun
            cases e
            exact frameH_refl h r
        | cons rule rs =>
            have e : (if (pySlice (heapRead h r) ((i : Int) + 1)
                  ((i : Int) + 1 + rule.input.length)).map
                    (fun x => (ic.get_class x : Int)) ≠ rule.input then
                chain2Rules fuel bc ic lc rs lookups pick h r i
              else if ((pySlice (heapRead h r) ((i : Int) - rule.backtrack.length)
                  (i : Int)).map (fun x => (bc.get_class x : Int))).reverse ≠
                    rule.backtrack then
                chain2Rules fuel bc ic lc rs lookups pick h r i
              else if (pySlice (heapRead h r) ((i : Int) + 1 + rule.input.length)
                  ((i : Int) + 1 +
                    ((rule.input.length + rule.lookahead.length : Nat) : Int))).map
                    (fun x => (lc.get_class x : Int)) ≠ rule.lookahead then
                chain2Rules fuel bc ic lc rs lookups pick h r i
              else
                match seqFold fuel rule.sequence rule.input.length lookups pick h r i with
                | none => none
                | some h3 => chain2Rules fuel bc ic lc rs lookups pick h3 r i) =
              some h2 := hrun
            by_cases c1 : (pySlice (heapRead h r) ((i : Int) + 1)
                ((i : Int) + 1 + rule.input.length)).map
                  (fun x => (ic.get_class x : Int)) ≠ rule.input
            · rw [if_pos c1] at e
              exact ihC2R bc ic lc rs lookups pick h r i h2 e
            · rw [if_neg c1] at e
              by_cases c2 : ((pySlice (heapRead h r) ((i : Int) - rule.backtrack.length)
                  (i : Int)).map (fun x => (bc.get_class x : Int))).reverse ≠
                    rule.backtrack
              · rw [if_pos c2] at e
                exact ihC2R bc ic lc rs lookups pick h r i h2 e
              · rw [if_neg c2] at e
                by_cases c3 : (pySlice (heapRead h r) ((i : Int) + 1 + rule.input.length)
                    ((i : Int) + 1 +
                      ((rule.input.length + rule.lookahead.length : Nat) : Int))).map
                      (fun x => (lc.get_class x : Int)) ≠ rule.lookahead
                · rw [if_pos c3] at e
                  exact ihC2R bc ic lc rs lookups pick h r i h2 e
                · rw [if_neg c3] at e
                  cases hsf : seqFold fuel rule.sequence rule.input.length
                      lookups pick h r i with
                  | none => rw [hsf] at e; cases e
                  | some h3 =>
                      rw [hsf] at e
                      exact frameH_trans
                        (ihSeq rule.sequence rule.input.length lookups pick h r i h3 hsf)
                        (ihC2R bc ic lc rs lookups pick h3 r i h2 e)
      -- chain3Loop
      · intro bcov icov lcov sls lookups pick h r i h2 hrun
        have e : (if (i : Int) < ((heapRead h r).length : Int) - lcov.length -
              icov.length + 1 then
            match covScan icov (heapRead h r) (fun k => (i : Int) + k) with
            | none => none
            | some false =>
                chain3Loop fuel bcov icov lcov sls lookups pick h r (i + 1)
            | some true =>
                match covScan bcov (heapRead h r) (fun k => (i : Int) - k - 1) with
                | none => none
                | some false =>
                    chain3Loop fuel bcov icov lcov sls lookups pick h r (i + 1)
                | some true =>
                    match covScan lcov (heapRead h r)
                        (fun k => (i : Int) + icov.length + k) with
                    | none => none
                    | some false =>
                        chain3Loop fuel bcov icov lcov sls lookups pick h r (i + 1)
                    | some true =>
                        match seqFold fuel sls icov.length lookups pick h r i with
                        | none => none
                        | some h3 =>
                            chain3Loop fuel bcov icov lcov sls lookups pick h3 r
                              (i + icov.length)
          else some h) = some h2 := hrun
        by_cases hlt : (i : Int) < ((heapRead h r).length : Int) - lcov.length -
            icov.length + 1
        · rw [if_pos hlt] at e
          cases hs1 : covScan icov (heapRead h r) (fun k => (i : Int) + k) with
          | none => rw [hs1] at e; cases e
          | some b1 =>
              rw [hs1] at e
              cases b1 with
              | false => exact ihC3L bcov icov lcov sls lookups pick h r (i + 1) h2 e
              | true =>
                  cases hs2 : covScan bcov (heapRead h r)
                      (fun k => (i : Int) - k - 1) with
                  | none => rw [hs2] at e; cases e
                  | some b2 =>
                      rw [hs2] at e
                      cases b2 with
                      | false =>
                          exact ihC3L bcov icov lcov sls lookups pick h r (i + 1) h2 e
                      | true =>
                          cases hs3 : covScan lcov (heapRead h r)
                              (fun k => (i : Int) + icov.length + k) with
                          | none => rw [hs3] at e; cases e
                          | some b3 =>
                              rw [hs3] at e
                              cases b3 with
                              | false =>
                                  exact ihC3L bcov icov lcov sls lookups pick h r
                                    (i + 1) h2 e
                              | true =>
                                  cases hsf : seqFold fuel sls icov.length
                                      lookups pick h r i with
                                  | none => rw [hsf] at e; cases e
                                  | some h3 =>
                                      rw [hsf] at e
                                      exact frameH_trans
                                        (ihSeq sls icov.length lookups pick h r i h3 hsf)
                                        (ihC3L bcov icov lcov sls lookups pick h3 r
                                          (i + icov.length) h2 e)
        · rw [if_neg hlt] at e
          cases e
          exact frameH_refl h r
      -- lookupRun
      · intro lk lookups name pick h r out hrun
        have e : subtablesFold fuel lk.subtables lookups name pick
            (h ++ [heapRead h r]) h.length = some out := hrun
        have fS := ihFold lk.subtables lookups name pick _ h.length out e
        refine ⟨le_trans (by simp) fS.1.1, fun q hq => ?_, ?_⟩
        · rw [fS.1.2 q (by simp; omega) (by omega)]
          exact heapRead_append_lt h _ q hq
        · rcases fS.2 with hcase | hcase
          · omega
          · simp at hcase
            omega
      -- subtablesFold
      · intro subs lookups name pick h r out hrun
        cases subs with
        | nil =>
            have e : some (h, r) = some out := hrun
            cases e
            exact ⟨frameH_refl h r, Or.inl rfl⟩
        | cons sub rest =>
            have e : (match subRun fuel sub lookups name pick h r with
              | none => none
              | some (h3, r2) => subtablesFold fuel rest lookups name pick h3 r2) =
                some out := hrun
            cases hsr : subRun fuel sub lookups name pick h r with
            | none => rw [hsr] at e; cases e
            | some p =>
                obtain ⟨ph, pr⟩ := p
                rw [hsr] at e
                have fS1 : FrameH h r ph ∧ (pr = r ∨ h.length ≤ pr) :=
                  ihSub sub lookups name pick h r (ph, pr) hsr
                have fS2 : FrameH ph pr out.1 ∧ (out.2 = pr ∨ ph.length ≤ out.2) :=
                  ihFold rest lookups name pick ph pr out e
                refine ⟨⟨le_trans fS1.1.1 fS2.1.1, fun q hq hqr => ?_⟩, ?_⟩
                · have hqp2 : q ≠ pr := by
                    rcases fS1.2 with hc | hc
                    · rw [hc]; exact hqr
                    · omega
                  rw [fS2.1.2 q (lt_of_lt_of_le hq fS1.1.1) hqp2,
                    fS1.1.2 q hq hqr]
                · rcases fS2.2 with hc | hc
                  · rcases fS1.2 with hc2 | hc2
                    · exact Or.inl (hc.trans hc2)
                    · exact Or.inr (by omega)
                  · exact Or.inr (le_trans fS1.1.1 hc)

/-- Frame of `applyFeatureTables`: every pre-existing heap cell survives,
the argument cell included, because each lookup runs on a fresh copy. -/
theorem applyFeatureTables_frame (fuel : Nat) :
    ∀ tables name lookups pick (h : Heap) r out,
      applyFeatureTables fuel tables name lookups pick h r = some out →
        h.length ≤ out.1.length ∧
          ∀ q, q < h.length → heapRead out.1 q = heapRead h q := by
  intro tables
  induction tables with
  | nil =>
      intro name lookups pick h r out hrun
      have e : some (h, r) = some out := hrun
      cases e
      exact ⟨le_refl _, fun q _ => rfl⟩
  | cons table rest ih =>
      intro name lookups pick h r out hrun
      have e : (match lookupRun fuel table lookups (some name) pick
          (h ++ [heapRead h r]) h.length with
        | none => none
        | some (h2, r2) => applyFeatureTables fuel rest name lookups pick h2 r2) =
          some out := hrun
      cases hlr : lookupRun fuel table lookups (some name) pick
          (h ++ [heapRead h r]) h.length with
      | none => rw [hlr] at e; cases e
      | some p =>
          obtain ⟨h2, r2⟩ := p
          rw [hlr] at e
          have fL : (h ++ [heapRead h r]).length ≤ h2.length ∧
              (∀ q, q < (h ++ [heapRead h r]).length →
                heapRead h2 q = heapRead (h ++ [heapRead h r]) q) ∧
              (h ++ [heapRead h r]).length ≤ r2 :=
            (gsubFrame fuel).2.2.2.2.2.2.2.1 table lookups (some name) pick
              (h ++ [heapRead h r]) h.length (h2, r2) hlr
          have frest := ih name lookups pick h2 r2 out e
          have hlen : h.length ≤ h2.length := le_trans (by simp) fL.1
          refine ⟨le_trans hlen frest.1, fun q hq => ?_⟩
          rw [frest.2 q (lt_of_lt_of_le hq hlen),
            fL.2.1 q (by simp; omega)]
          exact heapRead_append_lt h _ q hq

/-- Frame of one `featPass`: every pre-existing heap cell survives. -/
theorem featPass_frame (fuel : Nat) :
    ∀ entries gate lookups pick (h : Heap) r out,
      featPass fuel entries gate lookups pick h r = some out →
        h.length ≤ out.1.length ∧
          ∀ q, q < h.length → heapRead out.1 q = heapRead h q := by
  intro entries
  induction entries with
  | nil =>
      intro gate lookups pick h r out hrun
      have e : some (h, r) = some out := hrun
      cases e
      exact ⟨le_refl _, fun q _ => rfl⟩
  | cons entry rest ih =>
      intro gate lookups pick h r out hrun
      obtain ⟨name, tables⟩ := entry
      have e : (if gate name then
          match applyFeatureTables fuel tables name lookups pick h r with
          | none => none
          | some (h2, r2) => featPass fuel rest gate lookups pick h2 r2
        else featPass fuel rest gate lookups pick h r) = some out := hrun
      by_cases hg : gate name
      · rw [if_pos hg] at e
        cases haf : applyFeatureTables fuel tables name lookups pick h r with
        | none => rw [haf] at e; cases e
        | some p =>
            obtain ⟨h2, r2⟩ := p
            rw [haf] at e
            have f1 : h.length ≤ h2.length ∧
                ∀ q, q < h.length → heapRead h2 q = heapRead h q :=
              applyFeatureTables_frame fuel tables name lookups pick h r (h2, r2) haf
            have f2 := ih gate lookups pick h2 r2 out e
            refine ⟨le_trans f1.1 f2.1, fun q hq => ?_⟩
            rw [f2.2 q (lt_of_lt_of_le hq f1.1), f1.2 q hq]
      · rw [if_neg hg] at e
        exact ih gate lookups pick h r out e

/-- C10: `Gsub.sub` never mutates the caller's input glyph-id list.  In
the heap model every cell that exists before the call — in particular the
cell `r` holding the caller's list — holds exactly the same list after
`gsubRun` returns: each lookup is applied to a fresh copy, and every write
of the engine targets either that copy or a later allocation. -/
theorem c10_gsub_no_input_mutation (fuel : Nat) (gsub : Gsub)
    (features : List (String × Bool)) (pick : List Int → Nat)
    (h : Heap) (r : Nat) (out : Heap × Nat)
    (hrun : gsubRun fuel gsub features pick h r = some out) :
    ∀ q, q < h.length → heapRead out.1 q = heapRead h q := by
  have e : (match featPass fuel gsub.feattable (fun feat => feat ∈ gsubPermFeatures)
      gsub.lookups pick h r with
    | none => none
    | some (h1, r1) =>
        featPass fuel gsub.feattable (fun feat => assocGetD features feat false)
          gsub.lookups pick h1 r1) = some out := hrun
  cases hp1 : featPass fuel gsub.feattable (fun feat => feat ∈ gsubPermFeatures)
      gsub.lookups pick h r with
  | none => rw [hp1] at e; cases e
  | some p =>
      obtain ⟨hmid, rmid⟩ := p
      rw [hp1] at e
      have f1 : h.length ≤ hmid.length ∧
          ∀ q, q < h.length → heapRead hmid q = heapRead h q :=
        featPass_frame fuel gsub.feattable _ gsub.lookups pick h r (hmid, rmid) hp1
      have f2 : hmid.length ≤ out.1.length ∧
          ∀ q, q < hmid.length → heapRead out.1 q = heapRead hmid q :=
        featPass_frame fuel gsub.feattable _ gsub.lookups pick hmid rmid out e
      intro q hq
      rw [f2.2 q (lt_of_lt_of_le hq f1.1), f1.2 q hq]

/-- C10 witness: running the single-substitution fixture on a one-cell
heap substitutes 10 ↦ 15 in a fresh cell and leaves cell 0 untouched. -/
theorem c10_gsub_no_input_mutation_witness :
    gsubRun 8 gsubFixture [("liga", true)] (fun _ => 0) [[10, 20, 30]] 0 =
        some ([[10, 20, 30], [10, 20, 30], [15, 20, 30]], 2) ∧
      heapRead [[10, 20, 30], [10, 20, 30], [15, 20, 30]] 0 =
        heapRead [[10, 20, 30]] 0 :=
  ⟨rfl, c10_gsub_no_input_mutation 8 gsubFixture [("liga", true)] (fun _ => 0)
    [[10, 20, 30]] 0 ([[10, 20, 30], [10, 20, 30], [15, 20, 30]], 2) rfl 0
    (by decide)⟩

end Ziafont
